import Mathlib

/-!
Shallow embedding of the bitmap-index core of `bitstore.js` (Safecast).

The file embeds, in Lean, the arithmetic and state manipulated by the
`BITS` (single-tile bitmap index) and `LBITS` (per-layer index set)
classes of the first revision of `bitstore.js`, and proves or refutes
the frozen claims about them.

JavaScript numeric conventions used throughout the embedding:
* raster bytes (`Uint8Array` entries) are modelled as `Int` values
  (in the program they are in `[0,255]`, but nothing here needs that);
* packed bitmap words (`Uint16Array` entries) are modelled as `Nat`;
* the 32-bit operators `<<`, `>>>`, `&` are modelled by `jsShl`,
  `jsShrU`, `jsAnd` below, with explicit `ToInt32`/`ToUint32`
  wrap-around semantics;
* a read `a[i]` outside the bounds of a typed array yields `undefined`;
  `undefined > t` and `undefined <= t` are `false`, and
  `undefined & b` is `0`.  The helpers `jsReadGt`, `jsReadLe` and
  `jsU16Get` encode exactly this;
* a write `a[i] = v` outside the bounds of a typed array is ignored,
  which is also the behaviour of `List.set`.
-/

/-- JavaScript `ToUint32`: reduce an integer into `[0, 2^32)`. -/
def toUint32 (x : Int) : Int := x % 4294967296

/-- JavaScript `ToInt32`: reduce an integer into `[-2^31, 2^31)`. -/
def toInt32 (x : Int) : Int :=
  let r := x % 4294967296
  if r < 2147483648 then r else r - 4294967296

/-- JavaScript `x << s`: `ToInt32` of the left shift of `ToInt32 x` by
`ToUint32 s mod 32`. -/
def jsShl (x s : Int) : Int :=
  toInt32 (toInt32 x * 2 ^ (toUint32 s % 32).toNat)

/-- JavaScript `x >>> s`: logical right shift of `ToUint32 x` by
`ToUint32 s mod 32`; the result is non-negative. -/
def jsShrU (x s : Int) : Int :=
  toUint32 x / 2 ^ (toUint32 s % 32).toNat

/-- JavaScript 32-bit `x & y` (both operands pass through `ToInt32`;
computed here on the unsigned representatives, re-signed at the end). -/
def jsAnd (x y : Int) : Int :=
  toInt32 (Int.ofNat ((toUint32 x).toNat &&& (toUint32 y).toNat))

/-- Read `src[i] > t` for a typed-array read at a `Nat` index:
an out-of-bounds read yields `undefined`, and `undefined > t` is
`false`. -/
def jsReadGt (src : List Int) (i : Nat) (t : Int) : Bool :=
  match src.get? i with
  | some v => v > t
  | none => false

/-- Read `src[i] <= t` for a typed-array read at a `Nat` index:
an out-of-bounds read yields `undefined`, and `undefined <= t` is
`false`. -/
def jsReadLe (src : List Int) (i : Nat) (t : Int) : Bool :=
  match src.get? i with
  | some v => v ≤ t
  | none => false

/-- Read a `Uint16Array` entry at a possibly negative or huge computed
index, as used inside an `&` expression: out of bounds gives
`undefined`, and `ToInt32 undefined = 0`. -/
def jsU16Get (d : List Nat) (i : Int) : Int :=
  if 0 ≤ i then ((d.getD i.toNat 0 : Nat) : Int) else 0

/-- `BITS.c_GetDefaultExtentZoomLevel` (`return 21;`). -/
def BITS.c_GetDefaultExtentZoomLevel : Int := 21

/-- `BITS.c_MercXZtoMercXZ(x, z, dest_z)`:
`dest_z > z ? x << (dest_z - z) : x >>> (z - dest_z)`. -/
def BITS.c_MercXZtoMercXZ (x z dest_z : Int) : Int :=
  if dest_z > z then jsShl x (dest_z - z) else jsShrU x (z - dest_z)

/-- `LBITS.GetWorldSizeTiles(z)` (`return 1 << z;`). -/
def LBITS.GetWorldSizeTiles (z : Int) : Int := jsShl 1 z

/-- The loop of `LBITS.GetMaxZoomLevelSingleIndexForTilePx`: scan
`z = fuel, fuel-1, ..., 0` and return the first `z` with
`GetWorldSizeTiles(z) <= tile_px`; if none matched, the accumulator
`max_single_index_z` keeps its initial value `0`. -/
def LBITS.GetMaxZoomLevelSingleIndexForTilePx_scan (tile_px : Int) : Nat → Int
  | 0 => if GetWorldSizeTiles 0 ≤ tile_px then 0 else 0
  | z + 1 =>
    if GetWorldSizeTiles (z + 1) ≤ tile_px then (z + 1 : Nat)
    else GetMaxZoomLevelSingleIndexForTilePx_scan tile_px z

/-- `LBITS.GetMaxZoomLevelSingleIndexForTilePx(tile_px)`: the loop runs
`for (z = 21; z >= 0; z--)` and breaks at the first `z` whose world
size in tiles is at most `tile_px`. -/
def LBITS.GetMaxZoomLevelSingleIndexForTilePx (tile_px : Int) : Int :=
  GetMaxZoomLevelSingleIndexForTilePx_scan tile_px 21

/-- `LBITS.GetMaxZoomLevelSingleIndexForTileWidthHeightPx(tile_w, tile_h)`:
`min` of the per-dimension values. -/
def LBITS.GetMaxZoomLevelSingleIndexForTileWidthHeightPx (tile_w tile_h : Int) : Int :=
  min (GetMaxZoomLevelSingleIndexForTilePx tile_w)
      (GetMaxZoomLevelSingleIndexForTilePx tile_h)

/-- A pixel-extent vector, the first six entries of the `Uint32Array`
used by `BITS.c_SetPxExtentVector_u32`:
`(minX, minY, maxX, maxY, destZoom, srcZoom)`. -/
structure PxExtent where
  e0 : Int
  e1 : Int
  e2 : Int
  e3 : Int
  e4 : Int
  e5 : Int
deriving DecidableEq

/-- The eight-entry `Uint32Array` produced by
`BITS.c_GetPixelExtentFromBitstore`:
`(minX, minY, maxX, maxY, z, z, tileX, tileY)`. -/
structure PxExtent8 where
  p0 : Int
  p1 : Int
  p2 : Int
  p3 : Int
  p4 : Int
  p5 : Int
  p6 : Int
  p7 : Int
deriving DecidableEq

/-- `BITS.c_SetPxExtentVector_u32(v, x, y, z, dest_z, w, h)`: fills the
rectangle covered by tile `(x,y,z)` reprojected to `dest_z`.  Every
store into the `Uint32Array` passes through `ToUint32`; `v[3] = v[2]`
copies the already-stored 32-bit value. -/
def BITS.c_SetPxExtentVector_u32 (x y z dest_z : Int) (w h : Nat) : PxExtent :=
  let v0 := toUint32 (x * w)
  let v1 := toUint32 (y * h)
  let v4 := toUint32 dest_z
  let v5 := toUint32 z
  let v2w := toUint32 (w : Int)
  let v2 := toUint32 (c_MercXZtoMercXZ v2w v5 v4 - 1)
  let v3 := v2
  let v0r := toUint32 (c_MercXZtoMercXZ v0 v5 v4)
  let v1r := toUint32 (c_MercXZtoMercXZ v1 v5 v4)
  ⟨v0r, v1r, toUint32 (v2 + v0r), toUint32 (v3 + v1r), v4, v5⟩

/-- `BITS.c_GetNewPxExtentVector_u32(x, y, z, dest_z, w, h)`: allocates
a fresh vector and fills it with `c_SetPxExtentVector_u32`. -/
def BITS.c_GetNewPxExtentVector_u32 (x y z dest_z : Int) (w h : Nat) : PxExtent :=
  c_SetPxExtentVector_u32 x y z dest_z w h

/-- `BITS.c_GetNewPxExtentVector_u32(x, y, z, dest_z)` as called from
`BITS.prototype.CanIndexTile`, where the `w` and `h` arguments are
omitted.  In JavaScript `x * undefined` is `NaN`, and storing `NaN`
into a `Uint32Array` stores 0; `v[2] = w` likewise stores 0, so after
the `- 1` and the final additions the vector is
`(0, 0, 2^32-1, 2^32-1, dest_z, z)`.  The definition keeps the
formula of `c_SetPxExtentVector_u32` with those zero stores made
explicit. -/
def BITS.c_GetNewPxExtentVector_u32_noWH (_x _y z dest_z : Int) : PxExtent :=
  let v0 := (0 : Int)
  let v1 := (0 : Int)
  let v4 := toUint32 dest_z
  let v5 := toUint32 z
  let v2 := toUint32 (c_MercXZtoMercXZ 0 v5 v4 - 1)
  let v3 := v2
  let v0r := toUint32 (c_MercXZtoMercXZ v0 v5 v4)
  let v1r := toUint32 (c_MercXZtoMercXZ v1 v5 v4)
  ⟨v0r, v1r, toUint32 (v2 + v0r), toUint32 (v3 + v1r), v4, v5⟩

/-- The extent a `BITS` instance carries after its constructor ran
`UpdateExtent()` on a `null` extent: the tile-footprint vector at the
default extent zoom, with `extent[2] += 1; extent[3] += 1`
("compatibility with bad extent in iOS/OSX app"). -/
def BITS.UpdateExtent_extent (x y z : Int) (w h : Nat) : PxExtent :=
  let v := c_GetNewPxExtentVector_u32 x y z c_GetDefaultExtentZoomLevel w h
  { v with e2 := toUint32 (v.e2 + 1), e3 := toUint32 (v.e3 + 1) }

/-- `BITS.c_vMercXYZtoMercXYZ_u32(v)`: reprojects the four rectangle
coordinates from zoom `v[5]` to zoom `v[4]` in place (`<<` when moving
finer, `>>>` when moving coarser); returns the four new coordinates.
Stores pass through `ToUint32`. -/
def BITS.c_vMercXYZtoMercXYZ_u32 (v0 v1 v2 v3 v4 v5 : Int) : Int × Int × Int × Int :=
  if v4 > v5 then
    (toUint32 (jsShl v0 (v4 - v5)), toUint32 (jsShl v1 (v4 - v5)),
     toUint32 (jsShl v2 (v4 - v5)), toUint32 (jsShl v3 (v4 - v5)))
  else
    (toUint32 (jsShrU v0 (v5 - v4)), toUint32 (jsShrU v1 (v5 - v4)),
     toUint32 (jsShrU v2 (v5 - v4)), toUint32 (jsShrU v3 (v5 - v4)))

/-- `BITS.c_vPixelExtentToMercExtent_u32(v, w, h)`: offsets the pixel
extent by the tile origin `(v[6]*w, v[7]*h)`, sets the destination
zoom to `c_GetDefaultExtentZoomLevel()` and reprojects in place. -/
def BITS.c_vPixelExtentToMercExtent_u32 (p : PxExtent8) (w h : Nat) : PxExtent8 :=
  let q0 := toUint32 (p.p0 + p.p6 * w)
  let q1 := toUint32 (p.p1 + p.p7 * h)
  let q2 := toUint32 (p.p2 + p.p6 * w)
  let q3 := toUint32 (p.p3 + p.p7 * h)
  let q4 := toUint32 c_GetDefaultExtentZoomLevel
  let r := c_vMercXYZtoMercXYZ_u32 q0 q1 q2 q3 q4 p.p5
  ⟨r.1, r.2.1, r.2.2.1, r.2.2.2, q4, p.p5, p.p6, p.p7⟩

/-- The slots of the 16-entry `Uint32Array` `LBITS.extent` that the
code reads or writes: `extent[0..3]` are the layer extent rectangle
and `extent[12..15]` remember the zoom level that last touched each of
the four edges. -/
structure LayerExtent where
  x0 : Int
  y0 : Int
  x1 : Int
  y1 : Int
  z0 : Int
  z1 : Int
  z2 : Int
  z3 : Int
deriving DecidableEq

/-- One minimum-edge block of
`LBITS.prototype.UpdateLayerExtentFromBitstorePixelExtent`:
`if (px[5] >= curZ) { if (lo0 < cur) {cur = lo0; curZ = px[5];}
if (lo1 < cur) {cur = lo1; curZ = px[5];} }` (the second comparison
reads the value updated by the first). -/
def LBITS.updateLoEdge (cur curZ lo0 lo1 pz : Int) : Int × Int :=
  if pz ≥ curZ then
    let s := if lo0 < cur then (lo0, pz) else (cur, curZ)
    if lo1 < s.1 then (lo1, pz) else s
  else (cur, curZ)

/-- One maximum-edge block of
`LBITS.prototype.UpdateLayerExtentFromBitstorePixelExtent`, with `>`
instead of `<`. -/
def LBITS.updateHiEdge (cur curZ hi0 hi1 pz : Int) : Int × Int :=
  if pz ≥ curZ then
    let s := if hi0 > cur then (hi0, pz) else (cur, curZ)
    if hi1 > s.1 then (hi1, pz) else s
  else (cur, curZ)

/-- `LBITS.prototype.UpdateLayerExtentFromBitstorePixelExtent(px)`: on
the first call the extent array is allocated zero-filled with
`extent[0] = extent[1] = 0xFFFFFFFF`; the pixel extent is converted to
a map extent in place and then the four edges are updated by the four
conditional blocks. -/
def LBITS.UpdateLayerExtentFromBitstorePixelExtent (ext : Option LayerExtent)
    (px : PxExtent8) (w h : Nat) : LayerExtent :=
  let e : LayerExtent := match ext with
    | none => ⟨4294967295, 4294967295, 0, 0, 0, 0, 0, 0⟩
    | some e => e
  let p := BITS.c_vPixelExtentToMercExtent_u32 px w h
  let a := updateLoEdge e.x0 e.z0 p.p0 p.p2 p.p5
  let b := updateLoEdge e.y0 e.z1 p.p1 p.p3 p.p5
  let c := updateHiEdge e.x1 e.z2 p.p2 p.p0 p.p5
  let d := updateHiEdge e.y1 e.z3 p.p3 p.p1 p.p5
  ⟨a.1, b.1, c.1, d.1, a.2, b.2, c.2, d.2⟩

/-- The inclusive integer range `[a, b]` scanned by loops of the form
`for (i = a; i <= b; i++)`; empty when `b < a`. -/
def intRangeIncl (a b : Int) : List Int :=
  (List.range (b + 1 - a).toNat).map fun k => a + k

/-- The fields of a `BITS` instance read by the query path
(`ShouldLoadTile` / `CanIndexTile` / `DoesTileIntersectData`).

The embedding models the non-lazy configuration
(`idx_lazyload_detail = false`), in which the constructor-initialised
`needProc = false` never changes and `FinishLazyLoad` is a no-op, so
the `tempData`/`needProc` fields are omitted.  `data` is `none` for a
husk whose bitmap was never fetched (the constructor's `data = null`).
`extent` is the vector set by `UpdateExtent()`. -/
structure BITSState where
  layerId : Int
  x : Int
  y : Int
  z : Int
  data : Option (List Nat)
  isReady : Bool
  needGet : Bool
  getting : Bool
  extent : PxExtent
  img_width : Nat
  img_height : Nat
deriving DecidableEq

/-- `BITS.prototype.CanIndexTile(x, y, z, extent_u32)`: extent
intersection pre-filter.  When `extent_u32` is `null` the code calls
`c_GetNewPxExtentVector_u32(x, y, z, this._defExZ)` without `w`/`h`
(the degenerate vector `c_GetNewPxExtentVector_u32_noWH`);
`this._defExZ` is `c_GetDefaultExtentZoomLevel()`. -/
def BITS.CanIndexTile (bs : BITSState) (x y z : Int) (extent_u32 : Option PxExtent) : Bool :=
  let q : PxExtent := match extent_u32 with
    | none => c_GetNewPxExtentVector_u32_noWH x y z c_GetDefaultExtentZoomLevel
    | some q => q
  !(decide (q.e2 < bs.extent.e0) || decide (q.e0 ≥ bs.extent.e2) ||
    decide (q.e3 < bs.extent.e1) || decide (q.e1 ≥ bs.extent.e3))

/-- `BITS.prototype.DoesTileIntersectData(x, y, z)`: reproject the
query tile's pixel rectangle into this index's local pixel space and
scan every covered bit, short-circuiting on the first set bit.  A
`null` bitmap (husk) is modelled as an empty array: every read is
`undefined` and `undefined & b` is 0 (in JavaScript a `null` bitmap
would throw, but the caller guards with `isReady`). -/
def BITS.DoesTileIntersectData (bs : BITSState) (x y z : Int) : Bool :=
  let d := bs.data.getD []
  let w : Int := bs.img_width
  let h : Int := bs.img_height
  let px0 := c_MercXZtoMercXZ (x * w) z bs.z - bs.x * w
  let py0 := c_MercXZtoMercXZ (y * h) z bs.z - bs.y * h
  let px1 := c_MercXZtoMercXZ (x * w + w - 1) z bs.z - bs.x * w
  let py1 := c_MercXZtoMercXZ (y * h + h - 1) z bs.z - bs.y * h
  let bit_w := jsShrU w 2
  (intRangeIncl py0 py1).any fun bitY =>
    let yrsw := jsShrU bitY 2 * bit_w
    let yrem := jsShl (bitY - jsShl (jsShrU bitY 2) 2) 2
    (intRangeIncl px0 px1).any fun bitX =>
      let bitIdx := yrsw + jsShrU bitX 2
      jsAnd (jsU16Get d bitIdx) (jsShl 1 (yrem + bitX - jsShl (jsShrU bitX 2) 2)) != 0

/-- `BITS.prototype.ShouldLoadTile(layerId, x, y, z, extent_u32)`:
`true` (indeterminate) unless this member is ready, not awaiting a
fetch, matches the layer, has `this.z <= z` and passes `CanIndexTile`;
then the bitmap scan decides.  (The `needProc`/`FinishLazyLoad` branch
is a no-op in the modelled non-lazy configuration.) -/
def BITS.ShouldLoadTile (bs : BITSState) (layerId x y z : Int)
    (extent_u32 : Option PxExtent) : Bool :=
  if bs.isReady && !bs.needGet && bs.layerId == layerId && decide (bs.z ≤ z)
      && CanIndexTile bs x y z extent_u32
  then DoesTileIntersectData bs x y z
  else true

/-- The fields of an `LBITS` instance used by the query and
raster-add paths, in the modelled non-lazy, single-threaded
configuration (`idx_lazyload_detail = false`,
`net_multithreading = false`): the lazy-load branches of
`ShouldLoadTile` and the worker dispatch are inert.  The `img_*`
fields are the option-derived raster configuration copied into each
member. -/
structure LBITSState where
  layerId : Int
  isReady : Bool
  minZ : Int
  maxZ : Int
  extent : Option LayerExtent
  bitstores : List BITSState
  img_width : Nat
  img_height : Nat
  img_fx_unshadow : Bool
  img_fx_unstroke : Bool
  img_ch_offset : Nat
  img_alpha_threshold : Int
  img_unshd_threshold : Int
deriving DecidableEq

/-- `LBITS.prototype.IsTileInExtent(x, y, z, extent_u32)`: `true` when
the layer extent is still `null`; otherwise rectangle intersection
against `extent[0..3]`, with the query vector defaulted via
`c_GetNewPxExtentVector_u32(x, y, z, this._defExZ, w, h)`. -/
def LBITS.IsTileInExtent (st : LBITSState) (x y z : Int)
    (extent_u32 : Option PxExtent) : Bool :=
  match st.extent with
  | none => true
  | some e =>
    let q : PxExtent := match extent_u32 with
      | none => BITS.c_GetNewPxExtentVector_u32 x y z BITS.c_GetDefaultExtentZoomLevel
                  st.img_width st.img_height
      | some q => q
    !(decide (q.e2 < e.x0) || decide (q.e0 > e.x1) ||
      decide (q.e3 < e.y0) || decide (q.e1 > e.y1))

/-- The member loop of `LBITS.prototype.ShouldLoadTile`: for each
bitstore, if `shouldLoad` is still true replace it by the member's
verdict, and `break` as soon as it is false. -/
def LBITS.ShouldLoadTile_loop (layerId x y z : Int) (extent_u32 : Option PxExtent) :
    List BITSState → Bool → Bool
  | [], sl => sl
  | bs :: rest, sl =>
    let sl2 := if sl then BITS.ShouldLoadTile bs layerId x y z extent_u32 else sl
    if !sl2 then sl2 else ShouldLoadTile_loop layerId x y z extent_u32 rest sl2

/-- `LBITS.prototype.ShouldLoadTile(layerId, x, y, z, extent_u32)` in
the non-lazy configuration: `true` unless the layer matches and the
set is ready; otherwise the range/extent gates initialise
`shouldLoad` and the member loop can veto it. -/
def LBITS.ShouldLoadTile (st : LBITSState) (layerId x y z : Int)
    (extent_u32 : Option PxExtent) : Bool :=
  if st.layerId == layerId && st.isReady then
    let gates := decide (z ≥ st.minZ) && decide (z ≤ st.maxZ) &&
      decide (x ≥ 0) && decide (y ≥ 0) &&
      decide (x < jsShl 1 z) && decide (y < jsShl 1 z) &&
      IsTileInExtent st x y z extent_u32
    ShouldLoadTile_loop layerId x y z extent_u32 st.bitstores gates
  else true

/-- A ready 4×4 member index at tile `(0,0,0)` whose bitmap is empty
(no data anywhere). -/
def bsCexEmpty : BITSState :=
  { layerId := 7, x := 0, y := 0, z := 0, data := some [0], isReady := true,
    needGet := false, getting := false,
    extent := BITS.UpdateExtent_extent 0 0 0 4 4, img_width := 4, img_height := 4 }

/-- A ready 4×4 member index at tile `(0,0,0)` whose bitmap has the
bit of pixel `(0,0)` set. -/
def bsCexFull : BITSState :=
  { layerId := 7, x := 0, y := 0, z := 0, data := some [1], isReady := true,
    needGet := false, getting := false,
    extent := BITS.UpdateExtent_extent 0 0 0 4 4, img_width := 4, img_height := 4 }

/-- A ready layer index set holding the empty member before the
non-empty one, with the layer extent seeded from a full-tile master
pixel extent. -/
def lbitsCex : LBITSState :=
  { layerId := 7, isReady := true, minZ := 0, maxZ := 16,
    extent := some (LBITS.UpdateLayerExtentFromBitstorePixelExtent none
      ⟨0, 0, 3, 3, 0, 0, 0, 0⟩ 4 4),
    bitstores := [bsCexEmpty, bsCexFull], img_width := 4, img_height := 4,
    img_fx_unshadow := false, img_fx_unstroke := false, img_ch_offset := 3,
    img_alpha_threshold := 1, img_unshd_threshold := 1 }

/-- `BITS.GetRGBAOffsetsForAlphaOffset(ch_offset)`: most likely RGB
byte offsets for the given alpha offset. -/
def BITS.GetRGBAOffsetsForAlphaOffset (ch_offset : Nat) : List Nat :=
  if ch_offset = 0 then [1, 2, 3, 0]
  else if ch_offset = 1 then [2, 3, 0, 1]
  else if ch_offset = 2 then [3, 0, 1, 2]
  else [0, 1, 2, 3]

/-- `BITS.RecoverShadowAlphaInRGBA8888Tile(src, ch_offset,
alpha_threshold, unshd_threshold, w, h)`: for every pixel
(`y < h`, byte `x` stepping by 4 over a row), zero the chosen channel
when it is `> alpha_threshold - 1` while the other three channels are
all `<= unshd_threshold`.  The loop mutates only the chosen channel of
the pixel it is visiting and every read is of the visited pixel's own
bytes before that write, so the in-place loop equals this per-index
map over the original array (index `i` decodes to pixel
`(px, py) = ((i/4) % w, (i/4) / w)` and `i % 4` selects the channel). -/
def BITS.RecoverShadowAlphaInRGBA8888Tile (src : List Int) (ch_offset : Nat)
    (alpha_threshold unshd_threshold : Int) (w h : Nat) : List Int :=
  let rgbac := GetRGBAOffsetsForAlphaOffset ch_offset
  let rc := rgbac.getD 0 0
  let gc := rgbac.getD 1 0
  let bc := rgbac.getD 2 0
  src.mapIdx fun i v =>
    if i % 4 == ch_offset then
      let px := (i / 4) % w
      let py := (i / 4) / w
      let ywx := py * (4 * w) + 4 * px
      if decide (py < h) &&
          jsReadGt src (ywx + ch_offset) (alpha_threshold - 1) &&
          jsReadLe src (ywx + rc) unshd_threshold &&
          jsReadLe src (ywx + gc) unshd_threshold &&
          jsReadLe src (ywx + bc) unshd_threshold
      then 0 else v
    else v

/-- `BITS.RecoverDStrokeInRGBA8888Tile(dest, src, ch_offset,
alpha_threshold, w, h)`: for `y` in `[1, h-1)` and pixel `x` in
`[1, w-1)`, zero `dest`'s chosen channel when, in the snapshot `src`,
the pixel is data, its `(-1,-1)` neighbour is data and its `(+1,+1)`
neighbour is not.  All reads are from `src`, all writes go to `dest`,
so the loop equals this per-index map over `dest`. -/
def BITS.RecoverDStrokeInRGBA8888Tile (dest src : List Int) (ch_offset : Nat)
    (alpha_threshold : Int) (w h : Nat) : List Int :=
  dest.mapIdx fun i v =>
    if i % 4 == ch_offset then
      let px := (i / 4) % w
      let py := (i / 4) / w
      if (decide (1 ≤ px) && decide (px + 1 < w) &&
          decide (1 ≤ py) && decide (py + 1 < h)) &&
          jsReadGt src (py * (4 * w) + 4 * px + ch_offset) (alpha_threshold - 1) &&
          jsReadGt src ((py - 1) * (4 * w) + (4 * px - 4) + ch_offset) (alpha_threshold - 1) &&
          jsReadLe src ((py + 1) * (4 * w) + (4 * px + 4) + ch_offset) (alpha_threshold - 1)
      then 0 else v
    else v

/-- `BITS.RecoverXStrokeInRGBA8888Tile(dest, src, ch_offset,
alpha_threshold, w, h)`: the loop body tests
`src[y_width_x + ac] > alpha_threshold` (and the `±4` neighbours), but
`y_width_x` is declared and NEVER assigned in this revision (the later
revision assigns `y_width_x = (y_width + x)|0`).  Every read is
therefore `src[NaN + ac] = src[NaN] = undefined`, every comparison is
false, and the pass writes nothing: it is the identity on `dest`. -/
def BITS.RecoverXStrokeInRGBA8888Tile (dest _src : List Int) (_ch_offset : Nat)
    (_alpha_threshold : Int) (_w _h : Nat) : List Int :=
  dest

/-- `BITS.RecoverYStrokeInRGBA8888Tile(dest, src, ch_offset,
alpha_threshold, w, h)`: for `y` in `[1, h-1)` and every pixel `x` in
the row, zero `dest`'s chosen channel when, in the snapshot `src`, the
pixel is data, the pixel above is data and the pixel below is not. -/
def BITS.RecoverYStrokeInRGBA8888Tile (dest src : List Int) (ch_offset : Nat)
    (alpha_threshold : Int) (w h : Nat) : List Int :=
  dest.mapIdx fun i v =>
    if i % 4 == ch_offset then
      let px := (i / 4) % w
      let py := (i / 4) / w
      if (decide (1 ≤ py) && decide (py + 1 < h)) &&
          jsReadGt src (py * (4 * w) + 4 * px + ch_offset) (alpha_threshold - 1) &&
          jsReadGt src ((py - 1) * (4 * w) + 4 * px + ch_offset) (alpha_threshold - 1) &&
          jsReadLe src ((py + 1) * (4 * w) + 4 * px + ch_offset) (alpha_threshold - 1)
      then 0 else v
    else v

/-- `BITS.GetBitmapCellFromPlanarTile_u16(src, x, y, offset, stride,
threshold, w, h, bytes_per_row)`: synthesises one 16-bit grid word
from a 4×4 pixel block; `x` is a byte offset, `y` a pixel row,
`idxCount = 4*r + c` numbers the 16 samples row-major, and a sample
sets its bit when `src[(y+r)*w*stride + (x + c*stride) + offset] >
threshold - 1`.  When `src.length != bytes_per_row*h` the function
logs and falls through, returning `undefined`, which the caller's
`Uint16Array` store turns into 0 — modelled as returning 0. -/
def BITS.GetBitmapCellFromPlanarTile_u16 (src : List Int) (x y offset stride : Nat)
    (threshold : Int) (w h bytes_per_row : Nat) : Nat :=
  if src.length = bytes_per_row * h then
    (List.range 4).foldl (fun cv r =>
      (List.range 4).foldl (fun cv2 c =>
        if jsReadGt src ((y + r) * w * stride + (x + c * stride) + offset)
            (threshold - 1)
        then cv2 ||| (1 <<< (4 * r + c)) else cv2) cv) 0
  else 0

/-- `BITS.GetBitmapFromRGBA8888Tile(src, unshadow, unstroke,
ch_offset, alpha_threshold, unshd_threshold, w, h)`: `null` unless
`src.length == (w*h) << 2`; otherwise optionally run shadow recovery
in place, then (optionally) snapshot the channel (`backup = new
Uint8Array(src)`) and run the D, X, Y stroke passes in that order, all
reading the snapshot and writing zeroes into the working buffer;
finally pack the grid: the loops write
`dest[row*bit_w + col] = GetBitmapCellFromPlanarTile_u16(src, 16*col,
4*row, ch_offset, 4, alpha_threshold, w, h, 4*w)` into a zero-filled
`Uint16Array(bit_w*bit_h)` (out-of-range stores, possible when `w` or
`h` is not a multiple of 4, are ignored, as `List.set` does). -/
def BITS.GetBitmapFromRGBA8888Tile (src : List Int) (unshadow unstroke : Bool)
    (ch_offset : Nat) (alpha_threshold unshd_threshold : Int) (w h : Nat) :
    Option (List Nat) :=
  if (src.length : Int) = jsShl ((w : Int) * (h : Int)) 2 then
    let bit_w := w / 4
    let bit_h := h / 4
    let src1 := if unshadow then
        RecoverShadowAlphaInRGBA8888Tile src ch_offset alpha_threshold
          unshd_threshold w h
      else src
    let src2 := if unstroke then
        RecoverYStrokeInRGBA8888Tile
          (RecoverXStrokeInRGBA8888Tile
            (RecoverDStrokeInRGBA8888Tile src1 src1 ch_offset alpha_threshold w h)
            src1 ch_offset alpha_threshold w h)
          src1 ch_offset alpha_threshold w h
      else src1
    some ((List.range ((h + 3) / 4)).foldl (fun dest row =>
      (List.range ((w + 3) / 4)).foldl (fun dest2 col =>
        dest2.set (row * bit_w + col)
          (GetBitmapCellFromPlanarTile_u16 src2 (16 * col) (4 * row) ch_offset 4
            alpha_threshold w h (4 * w))) dest)
      (List.replicate (bit_w * bit_h) 0))
  else none

/-- `BITS.c_GetBitReusingIdx(src_u16, idx, x, y)`: bit
`((y mod 4) << 2) + (x mod 4)` of word `idx`; an out-of-bounds word
read is `undefined` and `undefined & bit` is 0.  The callers pass
pixel coordinates below the tile size, where the JavaScript 32-bit
shifts agree with the `Nat` operations used here. -/
def BITS.c_GetBitReusingIdx (src_u16 : List Nat) (idx x y : Nat) : Bool :=
  let xc := x - ((x >>> 2) <<< 2)
  let yc := (y - ((y >>> 2) <<< 2)) <<< 2
  let bit := 1 <<< (yc + xc)
  (src_u16.getD idx 0) &&& bit != 0

/-- `BITS.c_GetBit(src_u16, x, y, w, h)`: word index
`(y >>> 2) * (w >>> 2) + (x >>> 2)`, then `c_GetBitReusingIdx`. -/
def BITS.c_GetBit (src_u16 : List Nat) (x y w : Nat) (_h : Nat) : Bool :=
  let bit_w := w >>> 2
  let idx := (y >>> 2) * bit_w + (x >>> 2)
  c_GetBitReusingIdx src_u16 idx x y

/-- The documented 2×2-fill stroke-recovery example as an 8×8 RGBA
raster: the chosen channel (alpha, offset 3) is 255 at the true data
pixel `(2,2)` and at the three bleed pixels `(3,2)` (+x), `(2,3)`
(+y) and `(3,3)` (diagonal), i.e. at byte indices
`4*(y*8+x)+3 ∈ {75, 79, 107, 111}`, and 0 everywhere else. -/
def strokeCexSrc : List Int :=
  (List.range 256).map fun i =>
    if i = 75 ∨ i = 79 ∨ i = 107 ∨ i = 111 then 255 else 0

/-- `BITS.c_GetPixelExtentFromBitstore(src_u16, tx, ty, z, w, h)`:
scan the whole grid for set bits, tracking running min/max pixel
coordinates (initialised to the sentinels `32767`/`-32768`); if no
bit is set (or the grid is `null`/wrongly sized, skipping the scan)
the sentinel quadruple is replaced by `(0, 0, w, h)`.  Returns the
eight-entry vector `(minX, minY, maxX, maxY, z, z, tx, ty)`. -/
def BITS.c_GetPixelExtentFromBitstore (src_u16 : Option (List Nat)) (tx ty z : Int)
    (w h : Nat) : PxExtent8 :=
  let scan : Int × Int × Int × Int :=
    match src_u16 with
    | some d =>
      if d.length = (w >>> 2) * (h >>> 2) then
        (List.range h).foldl (fun acc y =>
          (List.range w).foldl (fun acc2 x =>
            if (d.getD ((y >>> 2) * (w >>> 2) + (x >>> 2)) 0) &&&
                (1 <<< (((y - ((y >>> 2) <<< 2)) <<< 2) + x - ((x >>> 2) <<< 2))) != 0
            then
              (if (x : Int) < acc2.1 then (x : Int) else acc2.1,
               if (y : Int) < acc2.2.1 then (y : Int) else acc2.2.1,
               if (x : Int) > acc2.2.2.1 then (x : Int) else acc2.2.2.1,
               if (y : Int) > acc2.2.2.2 then (y : Int) else acc2.2.2.2)
            else acc2) acc) (32767, 32767, -32768, -32768)
      else (32767, 32767, -32768, -32768)
    | none => (32767, 32767, -32768, -32768)
  let q : Int × Int × Int × Int :=
    if scan = (32767, 32767, -32768, -32768) then ((0 : Int), (0 : Int), (w : Int), (h : Int))
    else scan
  ⟨toUint32 q.1, toUint32 q.2.1, toUint32 q.2.2.1, toUint32 q.2.2.2,
   toUint32 z, toUint32 z, toUint32 tx, toUint32 ty⟩

/-- `LBITS.prototype.AddBitstoreFromRGBA8888_NoLazyLoad(rgba, x, y, z)`:
construct a `BITS` member (constructor runs `UpdateExtent`), mark it
ready, build its bitmap from the raster with the layer's image
configuration, push it, and refine the layer extent from the member's
occupied-pixel extent.  (`AddBitstoreToLocalCache` only writes the
persistent cache and changes no `LBITS` state.) -/
def LBITS.AddBitstoreFromRGBA8888_NoLazyLoad (st : LBITSState) (rgba : List Int)
    (x y z : Int) : LBITSState :=
  let data := BITS.GetBitmapFromRGBA8888Tile rgba st.img_fx_unshadow
    st.img_fx_unstroke st.img_ch_offset st.img_alpha_threshold
    st.img_unshd_threshold st.img_width st.img_height
  let bs : BITSState :=
    { layerId := st.layerId, x := x, y := y, z := z, data := data,
      isReady := true, needGet := false, getting := false,
      extent := BITS.UpdateExtent_extent x y z st.img_width st.img_height,
      img_width := st.img_width, img_height := st.img_height }
  let px := BITS.c_GetPixelExtentFromBitstore data x y z st.img_width st.img_height
  { st with bitstores := st.bitstores ++ [bs],
            extent := some (UpdateLayerExtentFromBitstorePixelExtent st.extent px
              st.img_width st.img_height) }

/-- `LBITS.prototype.AddBitstoreFromRGBA8888(rgba, x, y, z,
shouldAutoload)` in the modelled non-lazy configuration: add the
member, and if `shouldAutoload` run `AddAllDefaultBitstores()` (which
only dispatches asynchronous supplemental fetches — external I/O that
changes no state until their callbacks run) and set `isReady`. -/
def LBITS.AddBitstoreFromRGBA8888 (st : LBITSState) (rgba : List Int)
    (x y z : Int) (shouldAutoload : Bool) : LBITSState :=
  let st1 := AddBitstoreFromRGBA8888_NoLazyLoad st rgba x y z
  if shouldAutoload then { st1 with isReady := true } else st1

/-- The response callback of
`LBITS.prototype.AddAsync_PNG_URL_libpng` (`cubbyLlama`): after
decoding, verify `rgba.length == img_width * img_height * 4`; on a
mismatch only log ("Rejecting.") and leave the index set unchanged,
otherwise hand the raster to `AddBitstoreFromRGBA8888`. -/
def LBITS.AddAsync_PNG_URL_libpng_onResponse (st : LBITSState) (rgba : List Int)
    (x y z : Int) (shouldAutoload : Bool) : LBITSState :=
  if (rgba.length : Int) ≠ (st.img_width : Int) * (st.img_height : Int) * 4 then st
  else AddBitstoreFromRGBA8888 st rgba x y z shouldAutoload

/-- `BITS.c_DecomposeIndexIntoIV(src_u16)`: one pass over the grid
appending, for every nonzero word, `String.fromCharCode(i)` to the
index string and `String.fromCharCode(src_u16[i])` to the value
string.  Strings are modelled as lists of UTF-16 code units;
`fromCharCode` applies `ToUint16`, i.e. reduction mod 65536. -/
def BITS.c_DecomposeIndexIntoIV (src_u16 : List Nat) : List Nat × List Nat :=
  let idxs := (List.range src_u16.length).filter fun i => src_u16.getD i 0 != 0
  (idxs.map fun i => i % 65536,
   idxs.map fun i => src_u16.getD i 0 % 65536)

/-- The main, 4-way-unrolled loop of `LBITS.ivtovec_u16`:
`for (i = 0; i < max_i; i += 4)` performing the four scatter stores
in order (an out-of-range store into the `Uint16Array` is ignored,
as `List.set` does). -/
def LBITS.ivtovec_u16_main (dest srci srcv : List Nat) (i max_i : Nat) : List Nat :=
  if i < max_i then
    ivtovec_u16_main
      ((((dest.set (srci.getD i 0) (srcv.getD i 0)).set
          (srci.getD (i + 1) 0) (srcv.getD (i + 1) 0)).set
          (srci.getD (i + 2) 0) (srcv.getD (i + 2) 0)).set
          (srci.getD (i + 3) 0) (srcv.getD (i + 3) 0))
      srci srcv (i + 4) max_i
  else dest
termination_by max_i - i

/-- The remainder loop of `LBITS.ivtovec_u16`:
`for (i = max_i; i < max_i + src_n % 4; i++)`. -/
def LBITS.ivtovec_u16_rem (dest srci srcv : List Nat) (i stop : Nat) : List Nat :=
  if i < stop then
    ivtovec_u16_rem (dest.set (srci.getD i 0) (srcv.getD i 0)) srci srcv (i + 1) stop
  else dest
termination_by stop - i

/-- `LBITS.ivtovec_u16(dest_u16, srci_u16, srcv_u16)`: scatter
`dest[srci[i]] = srcv[i]`, unrolled four at a time over
`max_i = src_n - src_n % 4` with a remainder loop for the last
`src_n % 4` entries. -/
def LBITS.ivtovec_u16 (dest srci srcv : List Nat) : List Nat :=
  let src_n := srci.length
  let max_i := src_n - src_n % 4
  ivtovec_u16_rem (ivtovec_u16_main dest srci srcv 0 max_i) srci srcv
    max_i (max_i + src_n % 4)

/-- The naive sequential scatter the claim compares `ivtovec_u16`
against (stated from the spec side of the refinement):
`dest[srci[i]] = srcv[i]` for `i = 0, 1, ..., n-1` in order. -/
def LBITS.ivtovec_u16_naive (dest srci srcv : List Nat) : List Nat :=
  (List.range srci.length).foldl
    (fun d i => d.set (srci.getD i 0) (srcv.getD i 0)) dest

/-- `LBITS.new_ivtovec_u16(srci_u16, srcv_u16, n)`: scatter into a
fresh zero-filled `Uint16Array(n)`. -/
def LBITS.new_ivtovec_u16 (srci srcv : List Nat) (n : Nat) : List Nat :=
  ivtovec_u16 (List.replicate n 0) srci srcv

/-- `LBITS.DecodeBitmapIndexFromBinaryString(src_iv_str, w, h)`: split
the concatenated binary string in half (`n = length >>> 1`), read the
first `n` code units as indices and the next `n` as values (the
second loop runs to `src_iv_str.length`, but the `Uint16Array(n)` it
writes into ignores stores past `n`), and scatter into a fresh
`(w >>> 2)*(h >>> 2)`-word grid. -/
def LBITS.DecodeBitmapIndexFromBinaryString (src_iv : List Nat) (w h : Nat) : List Nat :=
  let n := src_iv.length >>> 1
  let dest_n := (w >>> 2) * (h >>> 2)
  let i_u16 := src_iv.take n
  let v_u16 := (src_iv.drop n).take n
  new_ivtovec_u16 i_u16 v_u16 dest_n

/-- The scenario raster of the claim: a 256×256 RGBA tile whose
chosen channel (alpha, offset 3) is 200 at pixel `(10,10)` — byte
index `4*(10*256+10)+3 = 10283` — and 0 everywhere else. -/
def raster256 : List Int :=
  (List.range 262144).map fun i => if i = 10283 then 200 else 0

/-- A small 4×4 witness raster: the chosen channel (alpha, offset 3)
is 5 at pixel `(2,1)` — byte index `4*(1*4+2)+3 = 27` — and 0
elsewhere. -/
def c3wSrc : List Int :=
  (List.range 64).map fun i => if i = 27 then 5 else 0

/-- The C7 counterexample grid: the bitmap grid of a 2048×2048 tile
(a documented tile size; `(2048 >>> 2)^2 = 262144` words), with a
single nonzero word, value 7, at index 70000 — an index that does
not fit in one UTF-16 code unit (`70000 % 65536 = 4464`). -/
def c7cexGrid : List Nat :=
  (List.range 262144).map fun i => if i = 70000 then 7 else 0

-- #### Theorems ####

/-- C4 counterexample: the claim says the maximum single-index zoom
delta for 512-pixel tiles is 7; the code returns 9 (the loop stops at
the first `z` with `2^z ≤ 512`, which is `z = 9`). -/
theorem C4_counterexample_512px :
    LBITS.GetMaxZoomLevelSingleIndexForTileWidthHeightPx 512 512 ≠ 7 := by
  decide

/-- C4 (amended): `GetMaxZoomLevelSingleIndexForTileWidthHeightPx`
returns 8 for 256-pixel tiles and 9 (not 7) for 512-pixel tiles. -/
theorem C4_max_single_index_zoom_256_512 :
    LBITS.GetMaxZoomLevelSingleIndexForTileWidthHeightPx 256 256 = 8 ∧
    LBITS.GetMaxZoomLevelSingleIndexForTileWidthHeightPx 512 512 = 9 := by
  decide

/-- C8 counterexample: the claim quantifies over every non-negative
coordinate; at `v = 2^31`, `a = 0`, `b = 1` the JavaScript `<<`
operator wraps (`ToInt32(2^31) = -2^31`, shifted left gives 0), so the
round trip returns 0, not `v`. -/
theorem C8_counterexample_overflow :
    BITS.c_MercXZtoMercXZ (BITS.c_MercXZtoMercXZ 2147483648 0 1) 1 0 ≠ 2147483648 := by
  decide

/-- Helper: `toUint32` is the identity on `[0, 2^32)`. -/
theorem toUint32_eq_self {x : Int} (h0 : 0 ≤ x) (h : x < 4294967296) :
    toUint32 x = x :=
  Int.emod_eq_of_lt h0 h

/-- Helper: `toInt32` is the identity on `[0, 2^31)`. -/
theorem toInt32_eq_self {x : Int} (h0 : 0 ≤ x) (h : x < 2147483648) :
    toInt32 x = x := by
  unfold toInt32
  rw [Int.emod_eq_of_lt h0 (by omega)]
  simp [h]

/-- C8 (amended): the reprojection round trip
`c_MercXZtoMercXZ(c_MercXZtoMercXZ(v, a, b), b, a) = v` holds for
`b ≥ a` whenever the intermediate value does not overflow 32-bit
arithmetic, i.e. `v * 2^(b-a) < 2^31`; the counterexample forces this
no-overflow bound. -/
theorem C8_reproject_roundtrip (v a b : Nat) (hab : a ≤ b)
    (hov : (v : Int) * 2 ^ (b - a) < 2147483648) :
    BITS.c_MercXZtoMercXZ (BITS.c_MercXZtoMercXZ (v : Int) (a : Int) (b : Int))
      (b : Int) (a : Int) = (v : Int) := by
  by_cases hv : v = 0
  · subst hv
    simp only [BITS.c_MercXZtoMercXZ, jsShl, jsShrU, toInt32, toUint32]
    split <;> simp
  · by_cases hlt : (a : Int) < (b : Int)
    · -- proper shift up then down
      have hs1 : 1 ≤ b - a := by omega
      have hcast : ((b : Int) - (a : Int)) = ((b - a : Nat) : Int) := by omega
      have hpow1 : (1 : Int) ≤ 2 ^ (b - a) := one_le_pow₀ (by norm_num)
      have hvlt : (v : Int) < 2147483648 := by
        have : (v : Int) * 1 ≤ (v : Int) * 2 ^ (b - a) :=
          mul_le_mul_of_nonneg_left hpow1 (by positivity)
        omega
      have hplt : (2 : Int) ^ (b - a) < 2147483648 := by
        have : (1 : Int) * 2 ^ (b - a) ≤ (v : Int) * 2 ^ (b - a) :=
          mul_le_mul_of_nonneg_right (by exact_mod_cast Nat.one_le_iff_ne_zero.mpr hv)
            (by positivity)
        omega
      have hslt : b - a < 31 := by
        by_contra hge
        have h31 : (2 : Int) ^ 31 ≤ 2 ^ (b - a) :=
          pow_le_pow_right₀ (by norm_num) (by omega)
        norm_num at h31
        omega
      have hshift : (toUint32 ((b : Int) - (a : Int)) % 32).toNat = b - a := by
        rw [hcast, toUint32_eq_self (by positivity) (by exact_mod_cast by omega),
          Int.emod_eq_of_lt (by positivity) (by exact_mod_cast by omega)]
        exact Int.toNat_natCast _
      have hinner : BITS.c_MercXZtoMercXZ (v : Int) (a : Int) (b : Int)
          = (v : Int) * 2 ^ (b - a) := by
        simp only [BITS.c_MercXZtoMercXZ, if_pos hlt, jsShl, hshift]
        rw [toInt32_eq_self (by positivity) hvlt,
          toInt32_eq_self (by positivity) hov]
      rw [hinner]
      have hnlt : ¬ ((a : Int) > (b : Int)) := by omega
      have hshift2 : (toUint32 ((b : Int) - (a : Int)) % 32).toNat = b - a := hshift
      simp only [BITS.c_MercXZtoMercXZ, gt_iff_lt, if_neg hnlt, jsShrU, hshift2]
      rw [toUint32_eq_self (by positivity) (by omega)]
      exact Int.mul_ediv_cancel _ (by positivity)
    · -- a = b: shifting by zero
      have hba : a = b := by omega
      subst hba
      have hvlt : (v : Int) < 2147483648 := by simpa using hov
      have hnlt : ¬ ((a : Int) < (a : Int)) := by omega
      simp only [BITS.c_MercXZtoMercXZ, gt_iff_lt, if_neg hnlt, jsShrU]
      rw [sub_self]
      have hone : (toUint32 0 % 32).toNat = 0 := by decide
      rw [hone]
      simp only [pow_zero, Int.ediv_one]
      have hv1 : toUint32 (v : Int) = (v : Int) :=
        toUint32_eq_self (by positivity) (by omega)
      rw [hv1, hv1]

/-- C8 witness: the amended round trip at `v = 3`, `a = 1`, `b = 4`. -/
theorem C8_reproject_roundtrip_witness :
    BITS.c_MercXZtoMercXZ (BITS.c_MercXZtoMercXZ (3 : Int) 1 4) 4 1 = 3 :=
  C8_reproject_roundtrip 3 1 4 (by decide) (by decide)

/-- Helper: a minimum-edge block never raises the edge value. -/
theorem updateLoEdge_fst_le (cur curZ lo0 lo1 pz : Int) :
    (LBITS.updateLoEdge cur curZ lo0 lo1 pz).1 ≤ cur := by
  simp only [LBITS.updateLoEdge]
  split_ifs <;> simp_all <;> omega

/-- Helper: a minimum-edge block changes the edge only if the
contribution's zoom is at least the recorded zoom. -/
theorem updateLoEdge_fst_ne (cur curZ lo0 lo1 pz : Int)
    (h : (LBITS.updateLoEdge cur curZ lo0 lo1 pz).1 ≠ cur) : curZ ≤ pz := by
  by_contra hz
  apply h
  simp only [LBITS.updateLoEdge, if_neg (by omega : ¬ pz ≥ curZ)]

/-- Helper: a maximum-edge block never lowers the edge value. -/
theorem updateHiEdge_fst_ge (cur curZ hi0 hi1 pz : Int) :
    cur ≤ (LBITS.updateHiEdge cur curZ hi0 hi1 pz).1 := by
  simp only [LBITS.updateHiEdge]
  split_ifs <;> simp_all <;> omega

/-- Helper: a maximum-edge block changes the edge only if the
contribution's zoom is at least the recorded zoom. -/
theorem updateHiEdge_fst_ne (cur curZ hi0 hi1 pz : Int)
    (h : (LBITS.updateHiEdge cur curZ hi0 hi1 pz).1 ≠ cur) : curZ ≤ pz := by
  by_contra hz
  apply h
  simp only [LBITS.updateHiEdge, if_neg (by omega : ¬ pz ≥ curZ)]

/-- C5 counterexample: after seeding the layer extent from a master
pixel extent (tile `(0,0,0)`, occupied pixel `(2,2)` of a 4×4 tile,
giving `minX = 2·2^21 = 4194304`), a second call with the pixel extent
of a finer member (zoom 1, occupied pixel `(1,1)`, giving
`minX = 1·2^20 = 1048576`) moves the stored `minX` LOWER — the update
widens the extent (a running union), it does not tighten it as the
claim states. -/
theorem C5_counterexample_extent_widens :
    (LBITS.UpdateLayerExtentFromBitstorePixelExtent
       (some (LBITS.UpdateLayerExtentFromBitstorePixelExtent none
         ⟨2, 2, 2, 2, 0, 0, 0, 0⟩ 4 4))
       ⟨1, 1, 1, 1, 1, 1, 0, 0⟩ 4 4).x0
    < (LBITS.UpdateLayerExtentFromBitstorePixelExtent none
         ⟨2, 2, 2, 2, 0, 0, 0, 0⟩ 4 4).x0 := by
  decide

/-- C5 (amended): each call to
`UpdateLayerExtentFromBitstorePixelExtent` after the master seeding
monotonically WIDENS the stored extent — `minX`/`minY` can only move
lower and `maxX`/`maxY` only higher (a running union of member
extents) — and an edge is modified only by a contribution whose source
zoom `px[5]` is at least the zoom recorded for that specific edge. -/
theorem C5_extent_update_monotone (e : LayerExtent) (px : PxExtent8) (w h : Nat) :
    ((LBITS.UpdateLayerExtentFromBitstorePixelExtent (some e) px w h).x0 ≤ e.x0 ∧
     (LBITS.UpdateLayerExtentFromBitstorePixelExtent (some e) px w h).y0 ≤ e.y0 ∧
     e.x1 ≤ (LBITS.UpdateLayerExtentFromBitstorePixelExtent (some e) px w h).x1 ∧
     e.y1 ≤ (LBITS.UpdateLayerExtentFromBitstorePixelExtent (some e) px w h).y1) ∧
    (((LBITS.UpdateLayerExtentFromBitstorePixelExtent (some e) px w h).x0 ≠ e.x0 →
        e.z0 ≤ (BITS.c_vPixelExtentToMercExtent_u32 px w h).p5) ∧
     ((LBITS.UpdateLayerExtentFromBitstorePixelExtent (some e) px w h).y0 ≠ e.y0 →
        e.z1 ≤ (BITS.c_vPixelExtentToMercExtent_u32 px w h).p5) ∧
     ((LBITS.UpdateLayerExtentFromBitstorePixelExtent (some e) px w h).x1 ≠ e.x1 →
        e.z2 ≤ (BITS.c_vPixelExtentToMercExtent_u32 px w h).p5) ∧
     ((LBITS.UpdateLayerExtentFromBitstorePixelExtent (some e) px w h).y1 ≠ e.y1 →
        e.z3 ≤ (BITS.c_vPixelExtentToMercExtent_u32 px w h).p5)) := by
  simp only [LBITS.UpdateLayerExtentFromBitstorePixelExtent]
  exact ⟨⟨updateLoEdge_fst_le _ _ _ _ _, updateLoEdge_fst_le _ _ _ _ _,
          updateHiEdge_fst_ge _ _ _ _ _, updateHiEdge_fst_ge _ _ _ _ _⟩,
         ⟨updateLoEdge_fst_ne _ _ _ _ _, updateLoEdge_fst_ne _ _ _ _ _,
          updateHiEdge_fst_ne _ _ _ _ _, updateHiEdge_fst_ne _ _ _ _ _⟩⟩

/-- C5 witness: the amended monotonicity theorem applied at the
concrete seeded extent and second contribution of the counterexample;
the changed `minX` edge indeed had a contribution zoom at least its
recorded zoom. -/
theorem C5_extent_update_monotone_witness :
    (0 : Int) ≤ (BITS.c_vPixelExtentToMercExtent_u32 ⟨1, 1, 1, 1, 1, 1, 0, 0⟩ 4 4).p5 :=
  (C5_extent_update_monotone ⟨4194304, 4194304, 4194304, 4194304, 0, 0, 0, 0⟩
    ⟨1, 1, 1, 1, 1, 1, 0, 0⟩ 4 4).2.1 (by decide)

/-- C2: before the index set is ready (`isReady = false`),
`LBITS.ShouldLoadTile` returns `true` for every query — the predicate
never suppresses a load during warm-up. -/
theorem C2_permissive_before_ready (st : LBITSState) (layerId x y z : Int)
    (extent_u32 : Option PxExtent) (h : st.isReady = false) :
    LBITS.ShouldLoadTile st layerId x y z extent_u32 = true := by
  simp [LBITS.ShouldLoadTile, h]

/-- C2 witness: a not-yet-ready index set (here with one member and a
seeded extent) answers `true` for a concrete in-range query. -/
theorem C2_permissive_before_ready_witness :
    LBITS.ShouldLoadTile
      { layerId := 7, isReady := false, minZ := 0, maxZ := 16, extent := none,
        bitstores := [], img_width := 256, img_height := 256,
        img_fx_unshadow := false, img_fx_unstroke := false, img_ch_offset := 3,
        img_alpha_threshold := 1, img_unshd_threshold := 1 }
      7 0 0 0 none = true :=
  C2_permissive_before_ready _ 7 0 0 0 none (by decide)

/-- Helper: a member's verdict is `false` exactly when the member is
applicable (ready, fetched, layer match, `bs.z ≤ z`, passes
`CanIndexTile`) and its bitmap scan finds no data. -/
theorem BITS_ShouldLoadTile_false_iff (bs : BITSState) (layerId x y z : Int)
    (extent_u32 : Option PxExtent) :
    BITS.ShouldLoadTile bs layerId x y z extent_u32 = false ↔
      (bs.isReady && !bs.needGet && bs.layerId == layerId && decide (bs.z ≤ z)
        && BITS.CanIndexTile bs x y z extent_u32) = true ∧
      BITS.DoesTileIntersectData bs x y z = false := by
  unfold BITS.ShouldLoadTile
  split <;> simp_all

/-- Helper: the member loop started with `shouldLoad = true` ends
`false` exactly when some member's verdict is `false` (the loop breaks
at the first such member). -/
theorem ShouldLoadTile_loop_false_iff (layerId x y z : Int)
    (extent_u32 : Option PxExtent) (bss : List BITSState) :
    LBITS.ShouldLoadTile_loop layerId x y z extent_u32 bss true = false ↔
      ∃ bs ∈ bss, BITS.ShouldLoadTile bs layerId x y z extent_u32 = false := by
  induction bss with
  | nil => simp [LBITS.ShouldLoadTile_loop]
  | cons bs rest ih =>
    cases hB : BITS.ShouldLoadTile bs layerId x y z extent_u32 with
    | false => simp [LBITS.ShouldLoadTile_loop, hB]
    | true => simp [LBITS.ShouldLoadTile_loop, hB, ih]

/-- C1 (amended): for a ready, layer-matched index set whose gates
(zoom range, coordinate range, extent intersection) all pass,
`ShouldLoadTile` returns `false` exactly when SOME applicable member
(ready, fetched, layer match, `bs.z ≤ z`, `CanIndexTile` passes)
reports that the tile does not intersect data; the loop suppresses on
the first such verdict regardless of other members — it does not
require every applicable member to agree. -/
theorem C1_should_load_false_iff (st : LBITSState) (layerId x y z : Int)
    (extent_u32 : Option PxExtent)
    (hr : st.isReady = true) (hl : st.layerId = layerId)
    (hg : (decide (z ≥ st.minZ) && decide (z ≤ st.maxZ) &&
           decide (x ≥ 0) && decide (y ≥ 0) &&
           decide (x < jsShl 1 z) && decide (y < jsShl 1 z) &&
           LBITS.IsTileInExtent st x y z extent_u32) = true) :
    LBITS.ShouldLoadTile st layerId x y z extent_u32 = false ↔
      ∃ bs ∈ st.bitstores,
        (bs.isReady && !bs.needGet && bs.layerId == layerId && decide (bs.z ≤ z)
          && BITS.CanIndexTile bs x y z extent_u32) = true ∧
        BITS.DoesTileIntersectData bs x y z = false := by
  unfold LBITS.ShouldLoadTile
  rw [hl]
  simp only [hr, beq_self_eq_true, Bool.and_true, Bool.and_self, if_true, hg]
  rw [ShouldLoadTile_loop_false_iff]
  constructor
  · rintro ⟨bs, hmem, hfalse⟩
    exact ⟨bs, hmem, (BITS_ShouldLoadTile_false_iff bs layerId x y z extent_u32).mp hfalse⟩
  · rintro ⟨bs, hmem, happ, hno⟩
    exact ⟨bs, hmem, (BITS_ShouldLoadTile_false_iff bs layerId x y z extent_u32).mpr ⟨happ, hno⟩⟩

/-- C1 counterexample: a ready, layer-matched, in-range, in-extent
query on `lbitsCex` returns `false` although the applicable member
`bsCexFull` reports that the tile DOES intersect data — the loop
breaks at the first member that reports "no data"
(`bsCexEmpty`), so a single "no data" verdict suppresses the load;
the claim's requirement that any intersecting applicable member keeps
the load enabled (and that `false` needs ALL applicable members to
agree) is violated. -/
theorem C1_counterexample_first_veto_wins :
    LBITS.ShouldLoadTile lbitsCex 7 0 0 0 none = false ∧
    LBITS.IsTileInExtent lbitsCex 0 0 0 none = true ∧
    bsCexFull ∈ lbitsCex.bitstores ∧
    (bsCexFull.isReady && !bsCexFull.needGet && bsCexFull.layerId == 7 &&
      decide (bsCexFull.z ≤ 0) && BITS.CanIndexTile bsCexFull 0 0 0 none) = true ∧
    BITS.DoesTileIntersectData bsCexFull 0 0 0 = true := by
  refine ⟨by decide, by decide, by decide, by decide, by decide⟩

/-- C1 witness: the amended characterisation applied to the concrete
ready index set `lbitsCex` at the in-range query `(7, 0, 0, 0)`. -/
theorem C1_should_load_false_iff_witness :
    LBITS.ShouldLoadTile lbitsCex 7 0 0 0 none = false ↔
      ∃ bs ∈ lbitsCex.bitstores,
        (bs.isReady && !bs.needGet && bs.layerId == 7 && decide (bs.z ≤ (0:Int))
          && BITS.CanIndexTile bs 0 0 0 none) = true ∧
        BITS.DoesTileIntersectData bs 0 0 0 = false :=
  C1_should_load_false_iff lbitsCex 7 0 0 0 none (by decide) (by decide) (by decide)

set_option maxRecDepth 8000 in
/-- C6 (code bug): building the bitmap from the documented 2×2 fill
example with stroke recovery enabled.  The D pass zeroes the diagonal
bleed `(3,3)` and the Y pass zeroes the vertical bleed `(2,3)`, but
the X pass in this revision never writes — its loop reads
`src[y_width_x + ac]` with `y_width_x` declared but never assigned
(`undefined`), so every comparison is false — and the horizontal
bleed pixel `(3,2)` stays set (bit 11, alongside bit 10 for the true
source pixel `(2,2)`, giving word 3072).  The claim (and the later
revision of the same file, which assigns `y_width_x = y_width + x`)
requires `(3,2)` to be zeroed as well. -/
theorem C6_stroke_recovery_x_pass_dead :
    BITS.GetBitmapFromRGBA8888Tile strokeCexSrc false true 3 1 1 8 8 =
      some [3072, 0, 0, 0] ∧
    (BITS.c_GetBit [3072, 0, 0, 0] 2 2 8 8 = true ∧
     BITS.c_GetBit [3072, 0, 0, 0] 3 2 8 8 = true ∧
     BITS.c_GetBit [3072, 0, 0, 0] 2 3 8 8 = false ∧
     BITS.c_GetBit [3072, 0, 0, 0] 3 3 8 8 = false) := by
  refine ⟨by decide, by decide, by decide, by decide, by decide⟩

/-- Helper: on realistic tile sizes (`w*h*4 < 2^31`) the JavaScript
`(w*h) << 2` in the length check equals `w*h*4` exactly. -/
theorem jsShl_two_eq_mul_four (m : Int) (h0 : 0 ≤ m) (h : m * 4 < 2147483648) :
    jsShl m 2 = m * 4 := by
  unfold jsShl
  have h2 : (toUint32 2 % 32).toNat = 2 := by decide
  rw [h2, toInt32_eq_self h0 (by omega), toInt32_eq_self (by positivity) (by omega)]
  ring

/-- C9: a raster whose length differs from `width*height*4` (with the
realistic bound `w*h*4 < 2^31`) makes `GetBitmapFromRGBA8888Tile`
return `null` without crashing, and the PNG-decode callback rejects
it without touching the index set — in particular the predicate's
answers are unchanged, so the failure can never cause an incorrect
suppression or a thrown exception. -/
theorem C9_shape_mismatch_rejected (src : List Int) (ush ust : Bool) (ch : Nat)
    (thr unshd : Int) (w h : Nat) (st : LBITSState) (rgba : List Int)
    (x y z : Int) (auto : Bool)
    (hsrc : (src.length : Int) ≠ (w : Int) * (h : Int) * 4)
    (hw : (w : Int) * (h : Int) * 4 < 2147483648)
    (hrgba : (rgba.length : Int) ≠ (st.img_width : Int) * (st.img_height : Int) * 4) :
    BITS.GetBitmapFromRGBA8888Tile src ush ust ch thr unshd w h = none ∧
    LBITS.AddAsync_PNG_URL_libpng_onResponse st rgba x y z auto = st ∧
    (∀ (l qx qy qz : Int) (ext : Option PxExtent),
      LBITS.ShouldLoadTile (LBITS.AddAsync_PNG_URL_libpng_onResponse st rgba x y z auto)
        l qx qy qz ext = LBITS.ShouldLoadTile st l qx qy qz ext) := by
  have hlen : jsShl ((w : Int) * (h : Int)) 2 = (w : Int) * (h : Int) * 4 :=
    jsShl_two_eq_mul_four _ (by positivity) hw
  have h1 : BITS.GetBitmapFromRGBA8888Tile src ush ust ch thr unshd w h = none := by
    unfold BITS.GetBitmapFromRGBA8888Tile
    rw [hlen, if_neg hsrc]
  have h2 : LBITS.AddAsync_PNG_URL_libpng_onResponse st rgba x y z auto = st := by
    unfold LBITS.AddAsync_PNG_URL_libpng_onResponse
    rw [if_pos hrgba]
  exact ⟨h1, h2, fun l qx qy qz ext => by rw [h2]⟩

/-- C9 witness: an empty raster against a 4×4 tile is rejected by
both the bitmap builder and the add callback, leaving the index set
untouched. -/
theorem C9_shape_mismatch_rejected_witness :
    BITS.GetBitmapFromRGBA8888Tile [] false false 3 1 1 4 4 = none ∧
    LBITS.AddAsync_PNG_URL_libpng_onResponse
      { layerId := 7, isReady := true, minZ := 0, maxZ := 16, extent := none,
        bitstores := [], img_width := 4, img_height := 4,
        img_fx_unshadow := false, img_fx_unstroke := false, img_ch_offset := 3,
        img_alpha_threshold := 1, img_unshd_threshold := 1 } [0] 0 0 1 false =
      { layerId := 7, isReady := true, minZ := 0, maxZ := 16, extent := none,
        bitstores := [], img_width := 4, img_height := 4,
        img_fx_unshadow := false, img_fx_unstroke := false, img_ch_offset := 3,
        img_alpha_threshold := 1, img_unshd_threshold := 1 } := by
  have h := C9_shape_mismatch_rejected [] false false 3 1 1 4 4
    { layerId := 7, isReady := true, minZ := 0, maxZ := 16, extent := none,
      bitstores := [], img_width := 4, img_height := 4,
      img_fx_unshadow := false, img_fx_unstroke := false, img_ch_offset := 3,
      img_alpha_threshold := 1, img_unshd_threshold := 1 } [0] 0 0 1 false
    (by decide) (by decide) (by decide)
  exact ⟨h.1, h.2.1⟩

/-- Helper: the remainder loop performs the scatter stores for
indices `[i, i+k)` in order. -/
theorem ivtovec_u16_rem_eq (srci srcv : List Nat) :
    ∀ (k i : Nat) (dest : List Nat),
      LBITS.ivtovec_u16_rem dest srci srcv i (i + k) =
      (List.range' i k).foldl
        (fun d j => d.set (srci.getD j 0) (srcv.getD j 0)) dest := by
  intro k
  induction k with
  | zero =>
    intro i dest
    rw [LBITS.ivtovec_u16_rem]
    simp
  | succ k ih =>
    intro i dest
    rw [LBITS.ivtovec_u16_rem, if_pos (by omega), List.range'_succ]
    simp only [List.foldl_cons]
    have he : i + (k + 1) = (i + 1) + k := by omega
    rw [he, ih]

/-- Helper: the 4-way-unrolled main loop performs the scatter stores
for indices `[i, i+4q)` in order. -/
theorem ivtovec_u16_main_eq (srci srcv : List Nat) :
    ∀ (q i : Nat) (dest : List Nat),
      LBITS.ivtovec_u16_main dest srci srcv i (i + 4 * q) =
      (List.range' i (4 * q)).foldl
        (fun d j => d.set (srci.getD j 0) (srcv.getD j 0)) dest := by
  intro q
  induction q with
  | zero =>
    intro i dest
    rw [LBITS.ivtovec_u16_main]
    simp
  | succ q ih =>
    intro i dest
    rw [LBITS.ivtovec_u16_main, if_pos (by omega)]
    have hr : List.range' i (4 * (q + 1)) =
        i :: (i + 1) :: (i + 2) :: (i + 3) :: List.range' (i + 4) (4 * q) := by
      rw [show 4 * (q + 1) = ((((4 * q) + 1) + 1) + 1) + 1 from by ring,
        List.range'_succ, List.range'_succ, List.range'_succ, List.range'_succ]
    rw [hr]
    simp only [List.foldl_cons]
    have he : i + 4 * (q + 1) = (i + 4) + 4 * q := by omega
    rw [he, ih]

/-- Shared helper: the unrolled scatter equals the naive sequential
scatter `dest[srci[i]] = srcv[i]` for `i = 0, ..., n-1`. -/
theorem ivtovec_u16_eq_naive (dest srci srcv : List Nat) :
    LBITS.ivtovec_u16 dest srci srcv = LBITS.ivtovec_u16_naive dest srci srcv := by
  unfold LBITS.ivtovec_u16 LBITS.ivtovec_u16_naive
  have h1 := ivtovec_u16_main_eq srci srcv (srci.length / 4) 0 dest
  have e1 : 0 + 4 * (srci.length / 4) = srci.length - srci.length % 4 := by omega
  rw [e1] at h1
  have h2 := ivtovec_u16_rem_eq srci srcv (srci.length % 4)
    (srci.length - srci.length % 4)
    (LBITS.ivtovec_u16_main dest srci srcv 0 (srci.length - srci.length % 4))
  rw [h2, h1]
  rw [← List.foldl_append]
  have e2 : srci.length - srci.length % 4 = 4 * (srci.length / 4) := by omega
  rw [e2]
  have h3 := List.range'_append 0 (4 * (srci.length / 4)) (srci.length % 4) 1
  simp only [Nat.zero_add, Nat.one_mul] at h3
  have e3 : srci.length % 4 + 4 * (srci.length / 4) = srci.length := by omega
  rw [e3] at h3
  rw [h3, List.range_eq_range']

/-- C10: the 4-way unrolled scatter loop of `ivtovec_u16` (main loop
over groups of four plus remainder loop) produces exactly the same
destination as the naive sequential loop executing
`dest[srci[i]] = srcv[i]` for `i = 0, 1, ..., n-1` in increasing
order — including for duplicate indices, where the last write wins in
both. -/
theorem C10_ivtovec_unrolled_eq_naive (dest srci srcv : List Nat)
    (_hlen : srcv.length = srci.length) :
    LBITS.ivtovec_u16 dest srci srcv = LBITS.ivtovec_u16_naive dest srci srcv :=
  ivtovec_u16_eq_naive dest srci srcv

/-- C10 witness: at five index/value pairs with a repeated index, both
loops produce the same array (last write wins). -/
theorem C10_ivtovec_unrolled_eq_naive_witness :
    LBITS.ivtovec_u16 [0, 0, 0] [1, 1, 2, 0, 1] [10, 20, 30, 40, 50] =
    LBITS.ivtovec_u16_naive [0, 0, 0] [1, 1, 2, 0, 1] [10, 20, 30, 40, 50] :=
  C10_ivtovec_unrolled_eq_naive [0, 0, 0] [1, 1, 2, 0, 1] [10, 20, 30, 40, 50]
    (by decide)

/-- Helper: two lists of equal length agreeing on `getD _ 0` at every
valid index are equal. -/
theorem list_eq_of_getD {l1 l2 : List Nat} (hlen : l1.length = l2.length)
    (h : ∀ k, k < l1.length → l1.getD k 0 = l2.getD k 0) : l1 = l2 := by
  refine List.ext_getElem hlen fun n h1 h2 => ?_
  have := h n h1
  rwa [List.getD_eq_getElem _ _ h1, List.getD_eq_getElem _ _ h2] at this

/-- Helper: a fold of `set`s preserves the length. -/
theorem length_foldl_set (g : Nat → Nat) :
    ∀ (l : List Nat) (d : List Nat),
      (l.foldl (fun d j => d.set j (g j)) d).length = d.length := by
  intro l
  induction l with
  | nil => intro d; rfl
  | cons j l ih =>
    intro d
    simp only [List.foldl_cons]
    rw [ih, List.length_set]

/-- Helper: after folding `set j (g j)` over an index list, position
`k` holds `g k` when `k` occurs in the list (and is in range) and is
untouched otherwise. -/
theorem getD_foldl_set (g : Nat → Nat) :
    ∀ (l : List Nat) (d : List Nat) (k : Nat),
      (l.foldl (fun d j => d.set j (g j)) d).getD k 0 =
        if k ∈ l ∧ k < d.length then g k else d.getD k 0 := by
  intro l
  induction l with
  | nil => simp
  | cons j l ih =>
    intro d k
    simp only [List.foldl_cons]
    rw [ih, List.length_set]
    by_cases h1 : k ∈ l ∧ k < d.length
    · rw [if_pos h1, if_pos ⟨List.mem_cons_of_mem j h1.1, h1.2⟩]
    · rw [if_neg h1]
      rcases Decidable.em (j = k) with hj | hj
      · subst hj
        rcases Decidable.em (j < d.length) with hd | hd
        · rw [if_pos ⟨List.mem_cons_self j l, hd⟩]
          rw [List.getD_eq_getElem?_getD, List.getElem?_set]
          simp [hd]
        · rw [if_neg (by tauto)]
          rw [List.getD_eq_getElem?_getD, List.getElem?_set]
          simp only [if_pos rfl, if_neg hd]
          rw [List.getD_eq_getElem?_getD, List.getElem?_eq_none (by omega)]
          simp
      · have : ¬ (k ∈ j :: l ∧ k < d.length) := by
          rintro ⟨hm, hlt⟩
          rcases List.mem_cons.mp hm with he | hm2
          · exact hj he.symm
          · exact h1 ⟨hm2, hlt⟩
        rw [if_neg this, List.getD_eq_getElem?_getD, List.getElem?_set,
          if_neg hj, ← List.getD_eq_getElem?_getD]

/-- Helper: a scatter driven by positions `i` into an index list `l`
and its `g`-image equals the direct fold of `set j (g j)` over `l`. -/
theorem range_foldl_getD_map (g : Nat → Nat) :
    ∀ (l : List Nat) (d : List Nat),
      (List.range l.length).foldl
        (fun d i => d.set (l.getD i 0) ((l.map g).getD i 0)) d =
      l.foldl (fun d j => d.set j (g j)) d := by
  intro l
  induction l with
  | nil => intro d; rfl
  | cons a l ih =>
    intro d
    rw [show (a :: l).length = l.length + 1 from rfl, List.range_succ_eq_map]
    simp only [List.foldl_cons, List.foldl_map, List.map_cons,
      List.getD_cons_zero, Nat.succ_eq_add_one, List.getD_cons_succ]
    exact ih (d.set a (g a))

/-- Helper: scattering `grid[j]` back to position `j` for every
nonzero position `j`, into a zero-filled array of the same length,
reconstructs `grid`. -/
theorem scatter_filter_nonzero (grid : List Nat) :
    ((List.range grid.length).filter fun i => grid.getD i 0 != 0).foldl
      (fun d j => d.set j (grid.getD j 0)) (List.replicate grid.length 0) = grid := by
  apply list_eq_of_getD
  · rw [length_foldl_set, List.length_replicate]
  · intro k hk
    rw [length_foldl_set, List.length_replicate] at hk
    rw [getD_foldl_set, List.length_replicate]
    by_cases hz : grid.getD k 0 = 0
    · have hnot : ¬ (k ∈ (List.range grid.length).filter
          (fun i => grid.getD i 0 != 0) ∧ k < grid.length) := by
        rintro ⟨hm, _⟩
        have hpred := (List.mem_filter.mp hm).2
        rw [hz] at hpred
        simp at hpred
      rw [if_neg hnot, List.getD_eq_getElem?_getD, List.getElem?_replicate,
        if_pos hk]
      exact hz.symm
    · rw [if_pos ⟨List.mem_filter.mpr ⟨List.mem_range.mpr hk, by simpa using hz⟩, hk⟩]

/-- C7 (amended): decomposing a bitmap grid of at most 65536 16-bit
words into its sparse index string and value string and
reconstructing from their concatenation (with the grid's width and
height) reproduces the grid word for word.  The word-count bound
`(w >>> 2)*(h >>> 2) ≤ 65536` (tile sides up to 1024 pixels) is
what makes every word index encodable as a single UTF-16 code unit;
for larger supported tiles `String.fromCharCode` truncates indices
mod 2^16 and the round trip fails (see the counterexample on a
2048×2048 grid). -/
theorem C7_iv_roundtrip (grid : List Nat) (w h : Nat)
    (hlen : grid.length = (w >>> 2) * (h >>> 2))
    (hcap : (w >>> 2) * (h >>> 2) ≤ 65536)
    (hval : ∀ v ∈ grid, v < 65536)
    (_hnz : (grid.filter fun v => v != 0).length ≤ 4096) :
    LBITS.DecodeBitmapIndexFromBinaryString
      ((BITS.c_DecomposeIndexIntoIV grid).1 ++ (BITS.c_DecomposeIndexIntoIV grid).2)
      w h = grid := by
  have hmem_lt : ∀ i ∈ (List.range grid.length).filter
      (fun i => grid.getD i 0 != 0), i < grid.length :=
    fun i hi => List.mem_range.mp (List.mem_filter.mp hi).1
  have hid : ∀ i ∈ (List.range grid.length).filter (fun i => grid.getD i 0 != 0),
      (fun i => i % 65536) i = id i := by
    intro i hi
    have h1 := hmem_lt i hi
    simp only [id_eq]
    omega
  have hfst : (BITS.c_DecomposeIndexIntoIV grid).1 =
      (List.range grid.length).filter (fun i => grid.getD i 0 != 0) := by
    have hrfl : (BITS.c_DecomposeIndexIntoIV grid).1 =
        ((List.range grid.length).filter (fun i => grid.getD i 0 != 0)).map
          (fun i => i % 65536) := rfl
    rw [hrfl, List.map_congr_left hid, List.map_id]
  have hsnd : (BITS.c_DecomposeIndexIntoIV grid).2 =
      ((List.range grid.length).filter (fun i => grid.getD i 0 != 0)).map
        (fun i => grid.getD i 0) := by
    have : (BITS.c_DecomposeIndexIntoIV grid).2 =
        ((List.range grid.length).filter (fun i => grid.getD i 0 != 0)).map
          (fun i => grid.getD i 0 % 65536) := rfl
    rw [this]
    refine List.map_congr_left fun i hi => Nat.mod_eq_of_lt ?_
    refine hval _ ?_
    rw [List.getD_eq_getElem _ _ (hmem_lt i hi)]
    exact List.getElem_mem _
  rw [hfst, hsnd]
  have hdec : ∀ (src : List Nat),
      LBITS.DecodeBitmapIndexFromBinaryString src w h =
      LBITS.ivtovec_u16 (List.replicate ((w >>> 2) * (h >>> 2)) 0)
        (src.take (src.length >>> 1))
        ((src.drop (src.length >>> 1)).take (src.length >>> 1)) :=
    fun src => rfl
  rw [hdec]
  have hnn : (((List.range grid.length).filter (fun i => grid.getD i 0 != 0)) ++
      ((List.range grid.length).filter (fun i => grid.getD i 0 != 0)).map
        (fun i => grid.getD i 0)).length >>> 1 =
      ((List.range grid.length).filter (fun i => grid.getD i 0 != 0)).length := by
    rw [List.length_append, List.length_map, Nat.shiftRight_one]
    omega
  rw [hnn, List.take_left, List.drop_left,
    show ((List.range grid.length).filter (fun i => grid.getD i 0 != 0)).length =
      (((List.range grid.length).filter (fun i => grid.getD i 0 != 0)).map
        (fun i => grid.getD i 0)).length from (List.length_map _ _).symm,
    List.take_length, ← hlen, ivtovec_u16_eq_naive]
  have hnaive : ∀ (d srci srcv : List Nat),
      LBITS.ivtovec_u16_naive d srci srcv =
      (List.range srci.length).foldl
        (fun d i => d.set (srci.getD i 0) (srcv.getD i 0)) d := fun _ _ _ => rfl
  rw [hnaive, range_foldl_getD_map]
  exact scatter_filter_nonzero grid

/-- C7 witness: round trip on a concrete 8×8 grid (4 words, two of
them nonzero). -/
theorem C7_iv_roundtrip_witness :
    LBITS.DecodeBitmapIndexFromBinaryString
      ((BITS.c_DecomposeIndexIntoIV [0, 7, 0, 65535]).1 ++
       (BITS.c_DecomposeIndexIntoIV [0, 7, 0, 65535]).2) 8 8 = [0, 7, 0, 65535] :=
  C7_iv_roundtrip [0, 7, 0, 65535] 8 8 (by decide) (by decide) (by decide) (by decide)

/-- Helper: bit `t` of an or-accumulating fold over a list of shift
positions is set iff it was set in the accumulator or `t` is a
position in the list whose guard holds. -/
theorem foldl_orshift_testBit (P : Nat → Bool) (t : Nat) :
    ∀ (l : List Nat) (acc : Nat),
      ((l.foldl (fun cv k => if P k then cv ||| (1 <<< k) else cv) acc).testBit t)
      = (acc.testBit t || (l.contains t && P t)) := by
  intro l
  induction l with
  | nil => simp
  | cons k l ih =>
    intro acc
    simp only [List.foldl_cons, List.contains_cons]
    rw [ih]
    rcases Decidable.em (k = t) with he | he
    · subst he
      cases hP : P k <;>
        simp [hP, Nat.testBit_or, Nat.shiftLeft_eq, Nat.testBit_two_pow]
    · have hbe : (t == k) = false := beq_eq_false_iff_ne.mpr fun hh => he hh.symm
      cases hP : P k <;>
        simp [hP, hbe, he, Nat.testBit_or, Nat.shiftLeft_eq, Nat.testBit_two_pow]

/-- Helper: bit `t < 16` of a packed cell word equals the threshold
test of sample `t` (row `t / 4`, column `t % 4`) of the 4×4 block. -/
theorem cell_testBit (src : List Int) (x y offset stride : Nat) (thr : Int)
    (w h bpr : Nat) (hsrc : src.length = bpr * h) (t : Nat) (ht : t < 16) :
    (BITS.GetBitmapCellFromPlanarTile_u16 src x y offset stride thr w h bpr).testBit t
    = jsReadGt src ((y + t / 4) * w * stride + (x + (t % 4) * stride) + offset)
        (thr - 1) := by
  have hflat : BITS.GetBitmapCellFromPlanarTile_u16 src x y offset stride thr w h bpr =
      (List.range 16).foldl (fun cv k =>
        if jsReadGt src ((y + k / 4) * w * stride + (x + (k % 4) * stride) + offset)
            (thr - 1)
        then cv ||| (1 <<< k) else cv) 0 := by
    unfold BITS.GetBitmapCellFromPlanarTile_u16
    rw [if_pos hsrc]
    rfl
  rw [hflat, foldl_orshift_testBit]
  have hc : (List.range 16).contains t = true := by
    simp [List.elem_iff, List.mem_range, ht]
  rw [hc]
  simp

/-- Helper: a cell word whose 16 guards are all false is zero. -/
theorem cell_eq_zero (src : List Int) (x y offset stride : Nat) (thr : Int)
    (w h bpr : Nat)
    (hall : ∀ t < 16,
      jsReadGt src ((y + t / 4) * w * stride + (x + (t % 4) * stride) + offset)
        (thr - 1) = false) :
    BITS.GetBitmapCellFromPlanarTile_u16 src x y offset stride thr w h bpr = 0 := by
  unfold BITS.GetBitmapCellFromPlanarTile_u16
  split
  · have hflat : (List.range 4).foldl (fun cv r =>
        (List.range 4).foldl (fun cv2 c =>
          if jsReadGt src ((y + r) * w * stride + (x + c * stride) + offset)
              (thr - 1)
          then cv2 ||| (1 <<< (4 * r + c)) else cv2) cv) 0 =
        (List.range 16).foldl (fun cv k =>
          if jsReadGt src ((y + k / 4) * w * stride + (x + (k % 4) * stride) + offset)
              (thr - 1)
          then cv ||| (1 <<< k) else cv) 0 := by rfl
    rw [hflat]
    have : ∀ (l : List Nat), (∀ t ∈ l, t < 16) →
        (l.foldl (fun cv k =>
          if jsReadGt src ((y + k / 4) * w * stride + (x + (k % 4) * stride) + offset)
              (thr - 1)
          then cv ||| (1 <<< k) else cv) 0) = 0 := by
      intro l
      induction l with
      | nil => intro _; rfl
      | cons k l ih =>
        intro hl
        simp only [List.foldl_cons]
        rw [hall k (hl k (List.mem_cons_self k l)), if_neg (by simp)]
        exact ih fun t ht => hl t (List.mem_cons_of_mem k ht)
    exact this _ fun t ht => List.mem_range.mp ht
  · rfl

/-- Helper: the inner packing fold preserves length. -/
theorem inner_fold_set_length (f : Nat → Nat) (base : Nat) :
    ∀ (cols : Nat) (d : List Nat),
      ((List.range cols).foldl (fun d2 col => d2.set (base + col) (f col)) d).length
      = d.length := by
  intro cols
  induction cols with
  | zero => intro d; rfl
  | succ n ih =>
    intro d
    rw [List.range_succ, List.foldl_append]
    simp only [List.foldl_cons, List.foldl_nil]
    rw [List.length_set, ih]

/-- Helper: the inner packing fold writes `f col` at `base + col` for
`col < cols` and leaves other positions unchanged. -/
theorem inner_fold_set_getElem? (f : Nat → Nat) (base : Nat) :
    ∀ (cols : Nat) (d : List Nat) (j : Nat),
      ((List.range cols).foldl (fun d2 col => d2.set (base + col) (f col)) d)[j]? =
      if base ≤ j ∧ j < base + cols ∧ j < d.length then some (f (j - base))
      else d[j]? := by
  intro cols
  induction cols with
  | zero =>
    intro d j
    simp only [List.range_zero, List.foldl_nil]
    rw [if_neg (by omega)]
  | succ n ih =>
    intro d j
    rw [List.range_succ, List.foldl_append]
    simp only [List.foldl_cons, List.foldl_nil]
    rw [List.getElem?_set, inner_fold_set_length, ih]
    rcases Decidable.em (base + n = j) with he | he
    · subst he
      rcases Decidable.em (base + n < d.length) with hd | hd
      · rw [if_pos rfl, if_pos hd,
          if_pos (show base ≤ base + n ∧ base + n < base + (n + 1) ∧
            base + n < d.length from ⟨by omega, by omega, hd⟩)]
        congr 1
        congr 1
        omega
      · rw [if_pos rfl, if_neg hd,
          if_neg (show ¬ (base ≤ base + n ∧ base + n < base + (n + 1) ∧
            base + n < d.length) from by omega),
          List.getElem?_eq_none (by omega)]
    · rw [if_neg he]
      rcases Decidable.em (base ≤ j ∧ j < base + n ∧ j < d.length) with hc | hc
      · rw [if_pos hc,
          if_pos (show base ≤ j ∧ j < base + (n + 1) ∧ j < d.length from
            ⟨hc.1, by omega, hc.2.2⟩)]
      · rw [if_neg hc,
          if_neg (show ¬ (base ≤ j ∧ j < base + (n + 1) ∧ j < d.length) from
            by omega)]

/-- Helper: the two-level packing fold preserves length. -/
theorem grid_build_length (bit_w : Nat) (f : Nat → Nat → Nat) :
    ∀ (rows : Nat) (d : List Nat),
      ((List.range rows).foldl (fun dest row =>
        (List.range bit_w).foldl
          (fun d2 col => d2.set (row * bit_w + col) (f row col)) dest) d).length
      = d.length := by
  intro rows
  induction rows with
  | zero => intro d; rfl
  | succ n ih =>
    intro d
    rw [List.range_succ, List.foldl_append]
    simp only [List.foldl_cons, List.foldl_nil]
    rw [inner_fold_set_length, ih]

/-- Helper: the two-level packing fold writes `f row col` at position
`row * bit_w + col`. -/
theorem grid_build_getElem? (bit_w : Nat) (f : Nat → Nat → Nat) :
    ∀ (rows : Nat) (d : List Nat) (row0 col0 : Nat),
      row0 < rows → col0 < bit_w → row0 * bit_w + col0 < d.length →
      ((List.range rows).foldl (fun dest row =>
        (List.range bit_w).foldl
          (fun d2 col => d2.set (row * bit_w + col) (f row col)) dest) d)[row0 * bit_w + col0]? =
      some (f row0 col0) := by
  intro rows
  induction rows with
  | zero => intro d row0 col0 h; omega
  | succ n ih =>
    intro d row0 col0 hrow hcol hlt
    rw [List.range_succ, List.foldl_append]
    simp only [List.foldl_cons, List.foldl_nil]
    rw [inner_fold_set_getElem?]
    rcases Decidable.em (row0 = n) with he | he
    · subst he
      rw [if_pos ⟨by omega, by omega, by rwa [grid_build_length]⟩]
      congr 1
      congr 1
      omega
    · have hb : row0 * bit_w + col0 < n * bit_w := by
        have h1 : row0 * bit_w + col0 < (row0 + 1) * bit_w := by
          rw [Nat.add_mul, Nat.one_mul]
          omega
        have h2 : (row0 + 1) * bit_w ≤ n * bit_w :=
          Nat.mul_le_mul_right _ (by omega)
        omega
      rw [if_neg (by omega)]
      exact ih d row0 col0 (by omega) hcol hlt

/-- Helper: with both recovery filters disabled and a well-shaped
raster, `GetBitmapFromRGBA8888Tile` is the plain two-level packing
fold over the raw raster. -/
theorem GetBitmap_build (src : List Int) (ch : Nat) (thr unshd : Int) (w h : Nat)
    (hw : w % 4 = 0) (hh : h % 4 = 0)
    (hlen : (src.length : Int) = jsShl ((w : Int) * (h : Int)) 2) :
    BITS.GetBitmapFromRGBA8888Tile src false false ch thr unshd w h =
    some ((List.range (h / 4)).foldl (fun dest row =>
      (List.range (w / 4)).foldl (fun d2 col =>
        d2.set (row * (w / 4) + col)
          (BITS.GetBitmapCellFromPlanarTile_u16 src (16 * col) (4 * row) ch 4 thr
            w h (4 * w))) dest)
      (List.replicate ((w / 4) * (h / 4)) 0)) := by
  unfold BITS.GetBitmapFromRGBA8888Tile
  rw [if_pos hlen]
  have hw4 : (w + 3) / 4 = w / 4 := by omega
  have hh4 : (h + 3) / 4 = h / 4 := by omega
  simp only [Bool.false_eq_true, if_false, hw4, hh4]

/-- Helper: the bit-test `(n & (1 << t)) != 0` is `Nat.testBit`. -/
theorem and_shift_ne (n t : Nat) : (n &&& (1 <<< t) != 0) = n.testBit t := by
  rw [Nat.shiftLeft_eq, one_mul, Nat.and_two_pow]
  cases hb : n.testBit t <;>
    simp [hb, Nat.ne_of_gt (Nat.two_pow_pos t)]

/-- Helper: `c_GetBit` in terms of word index and bit position. -/
theorem c_GetBit_eq (g : List Nat) (x y w h : Nat) :
    BITS.c_GetBit g x y w h =
      ((g.getD ((y / 4) * (w / 4) + x / 4) 0) &&&
        (1 <<< ((y % 4) * 4 + x % 4)) != 0) := by
  unfold BITS.c_GetBit BITS.c_GetBitReusingIdx
  have e2 : (2 : Nat) ^ 2 = 4 := by norm_num
  simp only [Nat.shiftRight_eq_div_pow, Nat.shiftLeft_eq, e2]
  have ex : x - x / 4 * 4 = x % 4 := by omega
  have ey : (y - y / 4 * 4) * 4 = y % 4 * 4 := by omega
  rw [ex, ey]

/-- Helper: generic bound `row0 < rows → col0 < bw →
row0 * bw + col0 < bw * rows`. -/
theorem row_col_lt (row0 col0 rows bw : Nat) (hr : row0 < rows) (hc : col0 < bw) :
    row0 * bw + col0 < bw * rows := by
  have h1 : row0 * bw + col0 < (row0 + 1) * bw := by
    rw [Nat.add_mul, Nat.one_mul]
    omega
  have h2 : (row0 + 1) * bw ≤ rows * bw := Nat.mul_le_mul_right _ (by omega)
  have h3 : rows * bw = bw * rows := Nat.mul_comm _ _
  omega

/-- Helper: a fold-or over positions whose guards agree is equal. -/
theorem foldl_orshift_congr (P Q : Nat → Bool) :
    ∀ (l : List Nat) (acc : Nat), (∀ k ∈ l, P k = Q k) →
      l.foldl (fun cv k => if P k then cv ||| (1 <<< k) else cv) acc =
      l.foldl (fun cv k => if Q k then cv ||| (1 <<< k) else cv) acc := by
  intro l
  induction l with
  | nil => intro acc _; rfl
  | cons k l ih =>
    intro acc hl
    simp only [List.foldl_cons]
    rw [hl k (List.mem_cons_self k l)]
    exact ih _ fun t ht => hl t (List.mem_cons_of_mem k ht)

/-- Helper: the nested 4×4 cell fold flattened to a single fold over
the 16 sample positions. -/
theorem cell_eq_flat (src : List Int) (x y offset stride : Nat) (thr : Int)
    (w h bpr : Nat) (hsrc : src.length = bpr * h) :
    BITS.GetBitmapCellFromPlanarTile_u16 src x y offset stride thr w h bpr =
    (List.range 16).foldl (fun cv k =>
      if jsReadGt src ((y + k / 4) * w * stride + (x + (k % 4) * stride) + offset)
          (thr - 1)
      then cv ||| (1 <<< k) else cv) 0 := by
  unfold BITS.GetBitmapCellFromPlanarTile_u16
  rw [if_pos hsrc]
  rfl

/-- Helper: an in-bounds raster read compares the stored byte with
the threshold. -/
theorem jsReadGt_in_bounds (src : List Int) (i : Nat) (t : Int)
    (hi : i < src.length) :
    jsReadGt src i t = decide (t < src.getD i 0) := by
  unfold jsReadGt
  rw [List.get?_eq_getElem?, List.getElem?_eq_getElem hi,
    List.getD_eq_getElem _ _ hi]

/-- Helper (general half of C3): with both recovery filters disabled,
`c_GetBit (x, y)` on the built bitmap holds iff the raster byte at
`4*(y*w+x)+ch_offset` is at least the threshold. -/
theorem GetBit_matches_threshold (src : List Int) (w h x y ch : Nat)
    (thr unshd : Int) (g : List Nat)
    (hw : w % 4 = 0) (hh : h % 4 = 0) (hw0 : 0 < w) (hh0 : 0 < h)
    (hch : ch < 4) (hx : x < w) (hy : y < h)
    (hbound : (w : Int) * (h : Int) * 4 < 2147483648)
    (hsome : BITS.GetBitmapFromRGBA8888Tile src false false ch thr unshd w h = some g) :
    (BITS.c_GetBit g x y w h = true ↔ thr ≤ src.getD (4 * (y * w + x) + ch) 0) := by
  have hlen : (src.length : Int) = jsShl ((w : Int) * (h : Int)) 2 := by
    by_contra hne
    rw [BITS.GetBitmapFromRGBA8888Tile, if_neg hne] at hsome
    exact Option.noConfusion hsome
  have hsrcLen : src.length = 4 * w * h := by
    have h4 : jsShl ((w : Int) * h) 2 = (w : Int) * h * 4 :=
      jsShl_two_eq_mul_four _ (by positivity) hbound
    have h5 : ((4 * w * h : Nat) : Int) = (w : Int) * h * 4 := by push_cast; ring
    have h6 : (src.length : Int) = ((4 * w * h : Nat) : Int) := by
      rw [hlen, h4, h5]
    exact_mod_cast h6
  rw [GetBitmap_build src ch thr unshd w h hw hh hlen] at hsome
  injection hsome with hg
  subst hg
  rw [c_GetBit_eq]
  have hrow : y / 4 < h / 4 := by omega
  have hcol : x / 4 < w / 4 := by omega
  have hlt : (y / 4) * (w / 4) + x / 4 <
      (List.replicate ((w / 4) * (h / 4)) 0).length := by
    rw [List.length_replicate]
    exact row_col_lt _ _ _ _ hrow hcol
  have hword := grid_build_getElem? (w / 4)
    (fun row col => BITS.GetBitmapCellFromPlanarTile_u16 src (16 * col) (4 * row)
      ch 4 thr w h (4 * w))
    (h / 4) (List.replicate ((w / 4) * (h / 4)) 0) (y / 4) (x / 4) hrow hcol hlt
  have hwordD :
      ((List.range (h / 4)).foldl (fun dest row =>
        (List.range (w / 4)).foldl (fun d2 col =>
          d2.set (row * (w / 4) + col)
            (BITS.GetBitmapCellFromPlanarTile_u16 src (16 * col) (4 * row) ch 4 thr
              w h (4 * w))) dest)
        (List.replicate ((w / 4) * (h / 4)) 0)).getD ((y / 4) * (w / 4) + x / 4) 0
      = BITS.GetBitmapCellFromPlanarTile_u16 src (16 * (x / 4)) (4 * (y / 4))
          ch 4 thr w h (4 * w) := by
    rw [List.getD_eq_getElem?_getD, hword, Option.getD_some]
  rw [hwordD, and_shift_ne,
    cell_testBit src _ _ _ _ thr w h (4 * w) (by omega) _ (by omega)]
  have et1 : ((y % 4) * 4 + x % 4) / 4 = y % 4 := by omega
  have et2 : ((y % 4) * 4 + x % 4) % 4 = x % 4 := by omega
  rw [et1, et2]
  have ey2 : 4 * (y / 4) + y % 4 = y := by omega
  have ex2 : 16 * (x / 4) + (x % 4) * 4 = 4 * x := by omega
  have hidx : (4 * (y / 4) + y % 4) * w * 4 + (16 * (x / 4) + (x % 4) * 4) + ch
      = 4 * (y * w + x) + ch := by
    rw [ey2, ex2]
    ring
  rw [hidx]
  have haux : ∀ a b : Nat, a < b → 4 * a + ch < 4 * b := fun a b hab => by omega
  have hin : 4 * (y * w + x) + ch < src.length := by
    rw [hsrcLen]
    have h1 : y * w + x < h * w := by
      calc y * w + x < y * w + w := by omega
        _ = (y + 1) * w := by ring
        _ ≤ h * w := Nat.mul_le_mul_right _ (by omega)
    have h2 := haux _ _ h1
    have h3 : 4 * (h * w) = 4 * w * h := by ring
    omega
  rw [jsReadGt_in_bounds _ _ _ hin]
  simp only [decide_eq_true_eq]
  omega

/-- Helper: indexed reads of the scenario raster. -/
theorem raster256_get (i : Nat) :
    raster256.get? i =
      if i < 262144 then some (if i = 10283 then (200 : Int) else 0) else none := by
  unfold raster256
  rw [List.get?_eq_getElem?, List.getElem?_map]
  rcases Decidable.em (i < 262144) with hi | hi
  · rw [if_pos hi, List.getElem?_range hi]
    rfl
  · rw [if_neg hi, List.getElem?_eq_none (by simpa using by omega)]
    rfl

/-- Helper: a thresholded read of the scenario raster holds exactly
at the single data byte. -/
theorem raster256_readGt (i : Nat) :
    jsReadGt raster256 i 0 = decide (i = 10283) := by
  unfold jsReadGt
  rw [raster256_get]
  rcases Decidable.em (i < 262144) with hi | hi
  · rw [if_pos hi]
    rcases Decidable.em (i = 10283) with he | he
    · subst he
      simp
    · rw [if_neg he]
      simp [he]
  · rw [if_neg hi]
    have : i ≠ 10283 := by omega
    simp [this]

set_option maxRecDepth 4000 in
/-- Helper (scenario half of C3): the 256×256 raster with channel
value 200 only at pixel `(10,10)` and threshold 1 packs to a grid
whose only nonzero word is word 130 with value 1024 (bit 10). -/
theorem raster256_scenario_grid (g : List Nat)
    (hsome : BITS.GetBitmapFromRGBA8888Tile raster256 false false 3 1 1 256 256
      = some g) :
    ∀ j < 4096, g.getD j 0 = if j = 130 then 1024 else 0 := by
  have hlenr : raster256.length = 262144 := by
    unfold raster256
    rw [List.length_map, List.length_range]
  have hlen : (raster256.length : Int) = jsShl ((256 : Int) * 256) 2 := by
    rw [hlenr]
    decide
  rw [GetBitmap_build raster256 3 1 1 256 256 (by norm_num) (by norm_num) hlen]
    at hsome
  injection hsome with hg
  subst hg
  intro j hj
  have hjeq : (j / 64) * (256 / 4) + j % 64 = j := by omega
  have hrow : j / 64 < 256 / 4 := by omega
  have hcol : j % 64 < 256 / 4 := by omega
  have hlt : (j / 64) * (256 / 4) + j % 64 <
      (List.replicate ((256 / 4) * (256 / 4)) 0).length := by
    rw [List.length_replicate]
    omega
  have hword := grid_build_getElem? (256 / 4)
    (fun row col => BITS.GetBitmapCellFromPlanarTile_u16 raster256 (16 * col)
      (4 * row) 3 4 1 256 256 (4 * 256))
    (256 / 4) (List.replicate ((256 / 4) * (256 / 4)) 0) (j / 64) (j % 64)
    hrow hcol hlt
  have hcell : ((List.range (256 / 4)).foldl (fun dest row =>
      (List.range (256 / 4)).foldl (fun d2 col =>
        d2.set (row * (256 / 4) + col)
          (BITS.GetBitmapCellFromPlanarTile_u16 raster256 (16 * col) (4 * row)
            3 4 1 256 256 (4 * 256))) dest)
      (List.replicate ((256 / 4) * (256 / 4)) 0)).getD j 0 =
      BITS.GetBitmapCellFromPlanarTile_u16 raster256 (16 * (j % 64)) (4 * (j / 64))
        3 4 1 256 256 (4 * 256) := by
    conv_lhs => rw [← hjeq]
    rw [List.getD_eq_getElem?_getD, hword, Option.getD_some]
  rw [hcell]
  have hsrc256 : raster256.length = (4 * 256) * 256 := by
    rw [hlenr]
  rcases Decidable.em (j = 130) with hj130 | hj130
  · subst hj130
    rw [if_pos rfl, cell_eq_flat _ _ _ _ _ _ _ _ _ hsrc256]
    rw [foldl_orshift_congr _ (fun k => k == 10) _ _ ?_]
    · decide
    · intro k hk
      have hk16 := List.mem_range.mp hk
      rw [show (1 : Int) - 1 = 0 from by norm_num, raster256_readGt]
      rcases Decidable.em (k = 10) with hk10 | hk10
      · subst hk10
        norm_num
      · have hne : (4 * (130 / 64) + k / 4) * 256 * 4 +
            (16 * (130 % 64) + k % 4 * 4) + 3 ≠ 10283 := by omega
        simp [hne, hk10]
  · rw [if_neg hj130]
    apply cell_eq_zero
    intro t ht
    rw [show (1 : Int) - 1 = 0 from by norm_num, raster256_readGt]
    have hne : (4 * (j / 64) + t / 4) * 256 * 4 +
        (16 * (j % 64) + t % 4 * 4) + 3 ≠ 10283 := by omega
    simp [hne]

/-- C3: with shadow and stroke recovery disabled, `c_GetBit (x, y)` on
the bitmap built by `GetBitmapFromRGBA8888Tile` equals
`src[4*(y*width+x)+ch_offset] >= alpha_threshold` for every pixel of
every well-shaped raster (tile sides multiples of 4, realistic size
bound `w*h*4 < 2^31`, channel offset within the pixel); and for the
256×256 scenario raster (channel 200 at pixel `(10,10)`, 0 elsewhere,
threshold 1) the packed grid has exactly one nonzero word, word 130,
with value 1024 (bit 10). -/
theorem C3_bitmap_bit_equals_threshold_test :
    (∀ (src : List Int) (w h x y ch : Nat) (thr unshd : Int) (g : List Nat),
      w % 4 = 0 → h % 4 = 0 → 0 < w → 0 < h → ch < 4 → x < w → y < h →
      (w : Int) * (h : Int) * 4 < 2147483648 →
      BITS.GetBitmapFromRGBA8888Tile src false false ch thr unshd w h = some g →
      (BITS.c_GetBit g x y w h = true ↔
        thr ≤ src.getD (4 * (y * w + x) + ch) 0)) ∧
    (∀ g : List Nat,
      BITS.GetBitmapFromRGBA8888Tile raster256 false false 3 1 1 256 256 = some g →
      ∀ j < 4096, g.getD j 0 = if j = 130 then 1024 else 0) :=
  ⟨fun src w h x y ch thr unshd g hw hh hw0 hh0 hch hx hy hbound hsome =>
    GetBit_matches_threshold src w h x y ch thr unshd g hw hh hw0 hh0 hch hx hy
      hbound hsome,
   fun g hsome => raster256_scenario_grid g hsome⟩

/-- C3 witness: the general half applied to the concrete 4×4 raster
`c3wSrc` (channel value 5 at pixel `(2,1)`, threshold 5), whose built
bitmap is the single word 64 (bit 6). -/
theorem C3_bitmap_bit_equals_threshold_test_witness :
    BITS.c_GetBit [64] 2 1 4 4 = true ↔
      (5 : Int) ≤ c3wSrc.getD (4 * (1 * 4 + 2) + 3) 0 :=
  C3_bitmap_bit_equals_threshold_test.1 c3wSrc 4 4 2 1 3 5 1 [64]
    (by decide) (by decide) (by decide) (by decide) (by decide) (by decide)
    (by decide) (by decide) (by decide)

/-- Helper: filtering an index range by an everywhere-false predicate
yields the empty list. -/
theorem filter_range_false (p : Nat → Bool) :
    ∀ n, (∀ i < n, p i = false) → (List.range n).filter p = [] := by
  intro n
  induction n with
  | zero => intro _; rfl
  | succ n ih =>
    intro h
    rw [List.range_succ, List.filter_append, ih fun i hi => h i (by omega)]
    simp [h n (by omega)]

/-- Helper: filtering an index range by a predicate that holds at
exactly one point `k < n` yields `[k]`. -/
theorem filter_range_eq_pt (p : Nat → Bool) (k : Nat)
    (hp : ∀ i, p i = (i == k)) :
    ∀ n, k < n → (List.range n).filter p = [k] := by
  intro n
  induction n with
  | zero => intro h; omega
  | succ n ih =>
    intro hk
    rw [List.range_succ, List.filter_append]
    rcases Decidable.em (k = n) with he | he
    · subst he
      rw [filter_range_false p k fun i hi => by
        rw [hp i]; exact beq_eq_false_iff_ne.mpr (by omega)]
      simp [hp k]
    · have hk2 : k < n := by omega
      rw [ih hk2]
      have hn : p n = false := by
        rw [hp n]; exact beq_eq_false_iff_ne.mpr (by omega)
      simp [hn]

/-- Helper: indexed reads of the C7 counterexample grid. -/
theorem c7cexGrid_getD (i : Nat) :
    c7cexGrid.getD i 0 = if i = 70000 then 7 else 0 := by
  unfold c7cexGrid
  rw [List.getD_eq_getElem?_getD, List.getElem?_map]
  rcases Decidable.em (i < 262144) with hi | hi
  · rw [List.getElem?_range hi]
    rfl
  · rw [List.getElem?_eq_none (by simpa using by omega)]
    have hne : i ≠ 70000 := by omega
    rw [if_neg hne]
    rfl

/-- C7 counterexample: the grid of a 2048×2048 tile with one nonzero
word at index 70000 satisfies the claim's hypotheses (matching shape,
16-bit words, far fewer than 4096 nonzero words), yet the round trip
does not reproduce it: `String.fromCharCode(70000)` truncates the
index to `4464`, so the reconstruction scatters the value to word
4464 instead of word 70000. -/
theorem C7_counterexample_charcode_truncation :
    c7cexGrid.length = (2048 >>> 2) * (2048 >>> 2) ∧
    (∀ v ∈ c7cexGrid, v < 65536) ∧
    (c7cexGrid.filter fun v => v != 0).length ≤ 4096 ∧
    LBITS.DecodeBitmapIndexFromBinaryString
      ((BITS.c_DecomposeIndexIntoIV c7cexGrid).1 ++
       (BITS.c_DecomposeIndexIntoIV c7cexGrid).2) 2048 2048 ≠ c7cexGrid := by
  refine ⟨?_, ?_, ?_, ?_⟩
  · unfold c7cexGrid
    rw [List.length_map, List.length_range]
    decide
  · intro v hv
    unfold c7cexGrid at hv
    rcases List.mem_map.mp hv with ⟨i, _, hfi⟩
    rcases Decidable.em (i = 70000) with he | he
    · rw [if_pos he] at hfi
      omega
    · rw [if_neg he] at hfi
      omega
  · have hfm : c7cexGrid.filter (fun v => v != 0) =
        ((List.range 262144).filter fun i =>
          (if i = 70000 then (7 : Nat) else 0) != 0).map
          (fun i => if i = 70000 then 7 else 0) := by
      unfold c7cexGrid
      rw [List.filter_map]
      rfl
    rw [hfm, filter_range_eq_pt _ 70000 ?_ 262144 (by omega)]
    · decide
    · intro i
      rcases Decidable.em (i = 70000) with he | he
      · subst he
        simp
      · simp [he]
  · have hfilter : (List.range c7cexGrid.length).filter
        (fun i => c7cexGrid.getD i 0 != 0) = [70000] := by
      have hlen : c7cexGrid.length = 262144 := by
        unfold c7cexGrid
        rw [List.length_map, List.length_range]
      rw [hlen]
      refine filter_range_eq_pt _ 70000 ?_ 262144 (by omega)
      intro i
      rw [c7cexGrid_getD]
      rcases Decidable.em (i = 70000) with he | he
      · subst he
        simp
      · simp [he]
    have hgen1 : ∀ grid : List Nat, (BITS.c_DecomposeIndexIntoIV grid).1 =
        ((List.range grid.length).filter
          fun i => grid.getD i 0 != 0).map (fun i => i % 65536) := fun _ => rfl
    have hgen2 : ∀ grid : List Nat, (BITS.c_DecomposeIndexIntoIV grid).2 =
        ((List.range grid.length).filter
          fun i => grid.getD i 0 != 0).map
          (fun i => grid.getD i 0 % 65536) := fun _ => rfl
    have hd1 : (BITS.c_DecomposeIndexIntoIV c7cexGrid).1 = [4464] := by
      rw [hgen1, hfilter]
      rfl
    have hd2 : (BITS.c_DecomposeIndexIntoIV c7cexGrid).2 = [7] := by
      rw [hgen2, hfilter]
      simp only [List.map_cons, List.map_nil, c7cexGrid_getD]
      decide
    rw [hd1, hd2]
    have hdec : LBITS.DecodeBitmapIndexFromBinaryString ([4464] ++ [7]) 2048 2048 =
        (List.replicate ((2048 >>> 2) * (2048 >>> 2)) 0).set 4464 7 := by
      have h1 : LBITS.DecodeBitmapIndexFromBinaryString ([4464] ++ [7]) 2048 2048 =
          LBITS.ivtovec_u16 (List.replicate ((2048 >>> 2) * (2048 >>> 2)) 0)
            [4464] [7] := rfl
      rw [h1, ivtovec_u16_eq_naive]
      rfl
    rw [hdec]
    intro heq
    have h0 : ((List.replicate ((2048 >>> 2) * (2048 >>> 2)) 0).set 4464 7).getD
        70000 0 = c7cexGrid.getD 70000 0 := by rw [heq]
    rw [c7cexGrid_getD, List.getD_eq_getElem?_getD, List.getElem?_set,
      if_neg (by omega), List.getElem?_replicate, if_pos (by omega)] at h0
    simp at h0
